import Mathlib

/-!
# Go-WebCrawler: sitemap discovery and bounded scraping

A shallow embedding of `src/main.go`.

* Pure code (`isSitemap`, `makeRequest`, `scrapePage`) is embedded as Lean functions.
  Go's `(value, error)` results are `Except`, or a pair when both components matter;
  a nil pointer dereference is an explicit outcome.
* The two engines (`extractSitemapURLs`, `scrapeUrls`) start goroutines that talk over
  channels.  Each is embedded as an interleaving transition system: a state holding the
  shared variables and the program counter of every goroutine, and an executable
  function `step` that, given the goroutine chosen by the scheduler, performs its next
  statement or returns `none` when that goroutine is blocked.  A schedule is a list of
  choices.  Every statement is taken as atomic (in particular `n++`, `n--` and `append`).
* The network, the XML/HTML parser and the clock are parameters.
-/

set_option autoImplicit false

namespace GoWebCrawler

/-! ## Data model -/

/-- Go `error` values; `nil` is the absence of one. -/
abbrev Err := String

/-- The record of `main.go` lines 16-22. -/
structure SeoData where
  URL : String
  Title : String
  H1 : String
  MetaDescription : String
  StatusCode : Int
deriving DecidableEq

deriving instance DecidableEq for Except

/-- The zero value `SeoData{}`. -/
def SeoData.zero : SeoData := ⟨"", "", "", "", 0⟩

/-- What the engines see of a `*http.Request`. -/
structure Request where
  method : String
  url : String
  userAgent : String
deriving DecidableEq

/-- What the engines see of a `*http.Response`. -/
structure Response where
  url : String
  statusCode : Int
  body : String
deriving DecidableEq

/-- Result of a call that either returns a value or dereferences a nil pointer
(a run-time panic, which no code in `main.go` recovers from). -/
inductive Outcome (α : Type) where
  | ret (a : α)
  | nilDeref
deriving DecidableEq

/-- The HTTP library as seen by `makeRequest`: `http.NewRequest` (on an error the
request it returns is nil), `client.Do`, and the string `randomUserAgent()` yields. -/
structure Transport where
  newRequest : String → String → Except Err Request
  clientDo : Request → Except Err Response
  userAgent : String

/-! ## `strings.Contains` and `isSitemap` -/

/-- Does `s` start with `sub`? -/
def startsWith : List Char → List Char → Bool
  | _, [] => true
  | [], _ :: _ => false
  | c :: s, d :: sub => c == d && startsWith s sub

/-- Does `sub` occur in `s` as a contiguous block? -/
def containsChars : List Char → List Char → Bool
  | [], sub => startsWith [] sub
  | c :: s, sub => startsWith (c :: s) sub || containsChars s sub

/-- Go's `strings.Contains(s, substr)`: exact (case-sensitive) substring test.  Strings
are taken as sequences of characters; for an ASCII `substr` such as "xml" this agrees
with Go's byte-wise search on UTF-8 text. -/
def Contains (s substr : String) : Bool := containsChars s.data substr.data

/-- One iteration of the loop of `isSitemap` (lines 149-157). -/
def isSitemapStep (acc : List String × List String) (page : String) :
    List String × List String :=
  if Contains page "xml" = true then (acc.1 ++ [page], acc.2) else (acc.1, acc.2 ++ [page])

/-- `isSitemap` (lines 146-159): returns `(sitemapFiles, pages)`. -/
def isSitemap (urls : List String) : List String × List String :=
  urls.foldl isSitemapStep ([], [])

/-! ## `makeRequest` and `scrapePage` -/

/-- `makeRequest` (lines 111-127).  The header is set on `req` (line 117) before `err`
is looked at (line 118); when `http.NewRequest` failed, `req` is nil. -/
def makeRequest (tr : Transport) (url : String) : Outcome (Except Err Response) :=
  match tr.newRequest "GET" url with
  | .error _ => .nilDeref
  | .ok req =>
    let req := { req with userAgent := tr.userAgent }
    match tr.clientDo req with
    | .error err => .ret (.error err)
    | .ok res => .ret (.ok res)

/-- Observable actions of one `scrapePage` call. -/
inductive Event where
  | acquire
  | fetch (url : String)
  | release
  | parse (res : Response)
deriving DecidableEq

/-- How a `scrapePage` call run on its own ends: it returns, it dies in a nil
dereference, or it blocks for ever; with the number of occupied pool slots and the
actions performed. -/
inductive PageRun where
  | ret (data : SeoData) (err : Option Err) (used : Nat) (log : List Event)
  | nilDeref (used : Nat) (log : List Event)
  | blocked (used : Nat) (log : List Event)
deriving DecidableEq

/-- `scrapePage` (lines 205-228) run on its own against a pool `tokens` of capacity
`cap` holding `used` elements.  `fetch` is `makeRequest`, `parser` is
`parser.GetSeoData`. -/
def scrapePage (fetch : String → Outcome (Except Err Response))
    (parser : Response → SeoData × Option Err) (url : String) (cap used : Nat) : PageRun :=
  if used < cap then
    -- line 208: tokens <- struct{}{}
    match fetch url with
    | .nilDeref => .nilDeref (used + 1) [.acquire, .fetch url]
    | .ret r =>
      -- line 210: <-tokens
      let used := used + 1 - 1
      match r with
      | .error err => .ret SeoData.zero (some err) used [.acquire, .fetch url, .release]
      | .ok res =>
        match parser res with
        | (_, some err) =>
          .ret SeoData.zero (some err) used [.acquire, .fetch url, .release, .parse res]
        | (data, none) => .ret data none used [.acquire, .fetch url, .release, .parse res]
  else .blocked used []

/-! ## Schedules -/

/-- The scheduler's choice of what runs next: the dispatch loop, the goroutine that
sends the seed batch, worker number `i`, or a direct hand-over on the `tokens` channel
from worker `i` (sending) to worker `j` (receiving). -/
inductive Choice where
  | main
  | seed
  | worker (i : Nat)
  | handoff (i j : Nat)
deriving DecidableEq

/-- Runs a schedule; `none` when a chosen goroutine cannot move. -/
def runSchedule {σ : Type} (step : σ → Choice → Option σ) : σ → List Choice → Option σ
  | s, [] => some s
  | s, c :: cs => (step s c).bind (fun t => runSchedule step t cs)

/-- States reachable from `s0` under some scheduling. -/
inductive Reach {σ : Type} (step : σ → Choice → Option σ) (s0 : σ) : σ → Prop where
  | init : Reach step s0 s0
  | next {s t : σ} (c : Choice) : Reach step s0 s → step s c = some t → Reach step s0 t

/-- No goroutine can move. -/
def Stuck {σ : Type} (step : σ → Choice → Option σ) (s : σ) : Prop :=
  ∀ c : Choice, step s c = none

/-! ## `extractSitemapURLs` (lines 63-108) -/

/-- Where a worker goroutine of `extractSitemapURLs` (lines 81-102) stands. -/
inductive CrawlWorker where
  /-- About to call `makeRequest(link)`, line 84. -/
  | request (link : String)
  /-- About to call `extractUrls(response)` and `isSitemap(urls)`, lines 90-96. -/
  | extract (res : Response)
  /-- Blocked in `worklist <- sitemapFiles`, line 98. -/
  | send (sitemapFiles pages : List String)
  /-- About to run `toCrawl = append(toCrawl, pages...)`, line 101. -/
  | append (pages : List String)
  /-- About to run the deferred `n--`, line 82. -/
  | exit
deriving DecidableEq

/-- Where the dispatch loop of `extractSitemapURLs` stands. -/
inductive CrawlMain where
  /-- About to test `n > 0`, line 72. -/
  | check
  /-- Blocked in `list := <-worklist`, line 74. -/
  | recv
  /-- Inside `for _, link := range list`, line 78, with the links still to visit. -/
  | iter (rest : List String)
  /-- Returned `toCrawl`, line 107. -/
  | done (result : List String)
deriving DecidableEq

/-- State of one `extractSitemapURLs` call: the shared variables `n` and `toCrawl`, the
batch the seed goroutine (line 70) has still to send, the live workers, and whether the
process died. -/
structure CrawlState where
  main : CrawlMain
  n : Int
  seed : Option (List String)
  workers : List CrawlWorker
  toCrawl : List String
  crashed : Bool
deriving DecidableEq

/-- State after lines 64-70: `n` is 1 and the seed goroutine is started. -/
def crawlInit (startURL : String) : CrawlState :=
  { main := .check, n := 1, seed := some [startURL], workers := [], toCrawl := [],
    crashed := false }

/-- Next statement of the dispatch loop (lines 72-107). -/
def crawlMainStep (s : CrawlState) : Option CrawlState :=
  match s.main with
  | .check => if 0 < s.n then some { s with main := .recv }
              else some { s with main := .done s.toCrawl }
  | .recv => none
  | .iter [] => some { s with main := .check }
  | .iter (link :: rest) =>
    if link ≠ "" then
      some { s with main := .iter rest, n := s.n + 1, workers := s.workers ++ [.request link] }
    else some { s with main := .iter rest }
  | .done _ => none

/-- The seed goroutine hands `[startURL]` to the loop waiting in line 74; the loop then
runs `n--` (line 75). -/
def crawlSeedStep (s : CrawlState) : Option CrawlState :=
  match s.main, s.seed with
  | .recv, some list => some { s with main := .iter list, n := s.n - 1, seed := none }
  | _, _ => none

/-- Next statement of worker `i` (lines 82-101).  A send succeeds only together with the
receive of line 74, which is followed by `n--` (line 75). -/
def crawlWorkerStep (fetch : String → Outcome (Except Err Response))
    (extractUrls : Response → Except Err (List String)) (s : CrawlState) (i : Nat) :
    Option CrawlState :=
  match s.workers[i]? with
  | none => none
  | some (.request link) =>
    match fetch link with
    | .nilDeref => some { s with crashed := true }
    | .ret (.error _) => some { s with workers := s.workers.set i .exit }
    | .ret (.ok res) => some { s with workers := s.workers.set i (.extract res) }
  | some (.extract res) =>
    match extractUrls res with
    | .error _ => some { s with workers := s.workers.set i .exit }
    | .ok urls =>
      if 0 < (isSitemap urls).1.length then
        some { s with workers := s.workers.set i (.send (isSitemap urls).1 (isSitemap urls).2) }
      else some { s with workers := s.workers.set i (.append (isSitemap urls).2) }
  | some (.send sitemapFiles pages) =>
    match s.main with
    | .recv => some { s with main := .iter sitemapFiles, n := s.n - 1,
                             workers := s.workers.set i (.append pages) }
    | _ => none
  | some (.append pages) =>
    some { s with toCrawl := s.toCrawl ++ pages, workers := s.workers.set i .exit }
  | some .exit => some { s with n := s.n - 1, workers := s.workers.eraseIdx i }

/-- One scheduling step of `extractSitemapURLs`. -/
def crawlStep (fetch : String → Outcome (Except Err Response))
    (extractUrls : Response → Except Err (List String)) (s : CrawlState) :
    Choice → Option CrawlState
  | .main => if s.crashed then none else crawlMainStep s
  | .seed => if s.crashed then none else crawlSeedStep s
  | .worker i => if s.crashed then none else crawlWorkerStep fetch extractUrls s i
  | .handoff _ _ => none

/-- The slice the call has returned, if it has. -/
def CrawlState.returned (s : CrawlState) : Option (List String) :=
  match s.main with
  | .done result => some result
  | _ => none

/-- `extractSitemapURLs(startURL)` under a given scheduling: the returned slice, or
`none` when the schedule cannot be followed or ends before the call returns. -/
def extractSitemapURLs (fetch : String → Outcome (Except Err Response))
    (extractUrls : Response → Except Err (List String)) (startURL : String)
    (schedule : List Choice) : Option (List String) :=
  (runSchedule (crawlStep fetch extractUrls) (crawlInit startURL) schedule).bind
    CrawlState.returned

/-- Units of work outstanding: batches offered on `worklist` and not yet received, plus
workers started and not yet finished. -/
def crawlOutstanding (s : CrawlState) : Nat :=
  (if s.seed.isSome then 1 else 0) + s.workers.length
    + (s.workers.filter (fun w => match w with | .send _ _ => true | _ => false)).length

/-! ## `scrapeUrls` (lines 163-202) -/

/-- Lines 211-227 of `scrapePage`: what it returns once the fetch has returned `r`. -/
def scrapePageTail (parser : Response → SeoData × Option Err) (r : Except Err Response) :
    SeoData × Option Err :=
  match r with
  | .error err => (SeoData.zero, some err)
  | .ok res =>
    match parser res with
    | (_, some err) => (SeoData.zero, some err)
    | (data, none) => (data, none)

/-- Where a worker goroutine of `scrapeUrls` (lines 183-196, inside it `scrapePage`)
stands. -/
inductive ScrapeWorker where
  /-- About to run `tokens <- struct{}{}`, line 208. -/
  | acquire (url : String)
  /-- Holds a slot, about to call `makeRequest(url)`, line 209. -/
  | fetch (url : String)
  /-- Holds a slot, about to run `<-tokens`, line 210. -/
  | release (r : Except Err Response)
  /-- Slot given back, about to run lines 211-227. -/
  | parse (r : Except Err Response)
  /-- `scrapePage` returned, about to run lines 188-192. -/
  | record (data : SeoData) (err : Option Err)
  /-- Blocked in `worklist <- []string{}`, line 195. -/
  | send
deriving DecidableEq

/-- Where the dispatch loop of `scrapeUrls` stands. -/
inductive ScrapeMain where
  /-- About to test `activeTasks > 0`, line 173. -/
  | check
  /-- Blocked in `batch := <-worklist`, line 174. -/
  | recv
  /-- Inside `for _, url := range batch`, line 178, with the URLs still to visit. -/
  | iter (rest : List String)
  /-- Returned `results`, line 201. -/
  | done (results : List SeoData)
deriving DecidableEq

/-- State of one `scrapeUrls` call: `activeTasks`, `results`, the number of elements
buffered in `tokens`, the batch the seed goroutine (line 171) has still to send, the live
workers, whether the process died, and two history counters: workers started and
batches received. -/
structure ScrapeState where
  main : ScrapeMain
  activeTasks : Int
  seed : Option (List String)
  workers : List ScrapeWorker
  tokens : Nat
  results : List SeoData
  crashed : Bool
  dispatched : Nat
  received : Nat
deriving DecidableEq

/-- State after lines 164-171. -/
def scrapeInit (urls : List String) : ScrapeState :=
  { main := .check, activeTasks := 1, seed := some urls, workers := [], tokens := 0,
    results := [], crashed := false, dispatched := 0, received := 0 }

/-- Next statement of the dispatch loop (lines 173-201). -/
def scrapeMainStep (s : ScrapeState) : Option ScrapeState :=
  match s.main with
  | .check => if 0 < s.activeTasks then some { s with main := .recv }
              else some { s with main := .done s.results }
  | .recv => none
  | .iter [] => some { s with main := .check }
  | .iter (url :: rest) =>
    if url ≠ "" then
      some { s with main := .iter rest, activeTasks := s.activeTasks + 1,
                    workers := s.workers ++ [.acquire url], dispatched := s.dispatched + 1 }
    else some { s with main := .iter rest }
  | .done _ => none

/-- The seed goroutine hands `urls` to the loop waiting in line 174; the loop then runs
`activeTasks--` (line 175). -/
def scrapeSeedStep (s : ScrapeState) : Option ScrapeState :=
  match s.main, s.seed with
  | .recv, some batch =>
    some { s with main := .iter batch, activeTasks := s.activeTasks - 1, seed := none,
                  received := s.received + 1 }
  | _, _ => none

/-- Next statement of worker `i`.  `tokens` has capacity `cap`: a send into it needs a
free place, a receive from it needs a buffered element. -/
def scrapeWorkerStep (cap : Nat) (fetch : String → Outcome (Except Err Response))
    (parser : Response → SeoData × Option Err) (s : ScrapeState) (i : Nat) :
    Option ScrapeState :=
  match s.workers[i]? with
  | none => none
  | some (.acquire url) =>
    if s.tokens < cap then
      some { s with tokens := s.tokens + 1, workers := s.workers.set i (.fetch url) }
    else none
  | some (.fetch url) =>
    match fetch url with
    | .nilDeref => some { s with crashed := true }
    | .ret r => some { s with workers := s.workers.set i (.release r) }
  | some (.release r) =>
    if 0 < s.tokens then
      some { s with tokens := s.tokens - 1, workers := s.workers.set i (.parse r) }
    else none
  | some (.parse r) =>
    some { s with workers :=
      s.workers.set i (.record (scrapePageTail parser r).1 (scrapePageTail parser r).2) }
  | some (.record data err) =>
    match err with
    | some _ => some { s with workers := s.workers.set i .send }
    | none => some { s with results := s.results ++ [data], workers := s.workers.set i .send }
  | some .send =>
    match s.main with
    | .recv => some { s with main := .iter [], activeTasks := s.activeTasks - 1,
                             workers := s.workers.eraseIdx i, received := s.received + 1 }
    | _ => none

/-- Direct hand-over on `tokens` when nothing is buffered: worker `i`, sending in line
208, meets worker `j`, receiving in line 210.  This is the only way a send on a channel
of capacity 0 can complete. -/
def scrapeHandoffStep (s : ScrapeState) (i j : Nat) : Option ScrapeState :=
  match s.workers[i]?, s.workers[j]? with
  | some (.acquire url), some (.release r) =>
    if s.tokens = 0 then
      some { s with workers := (s.workers.set i (.fetch url)).set j (.parse r) }
    else none
  | _, _ => none

/-- One scheduling step of `scrapeUrls` with `concurrency = cap`. -/
def scrapeStep (cap : Nat) (fetch : String → Outcome (Except Err Response))
    (parser : Response → SeoData × Option Err) (s : ScrapeState) :
    Choice → Option ScrapeState
  | .main => if s.crashed then none else scrapeMainStep s
  | .seed => if s.crashed then none else scrapeSeedStep s
  | .worker i => if s.crashed then none else scrapeWorkerStep cap fetch parser s i
  | .handoff i j => if s.crashed then none else scrapeHandoffStep s i j

/-- The slice the call has returned, if it has. -/
def ScrapeState.returned (s : ScrapeState) : Option (List SeoData) :=
  match s.main with
  | .done results => some results
  | _ => none

/-- `scrapeUrls(urls, parser, concurrency)` under a given scheduling: the returned slice,
or `none` when the schedule cannot be followed or ends before the call returns. -/
def scrapeUrls (fetch : String → Outcome (Except Err Response)) (urls : List String)
    (parser : Response → SeoData × Option Err) (concurrency : Nat)
    (schedule : List Choice) : Option (List SeoData) :=
  (runSchedule (scrapeStep concurrency fetch parser) (scrapeInit urls) schedule).bind
    ScrapeState.returned

/-- Does the worker hold a pool slot (is it between lines 208 and 210)? -/
def ScrapeWorker.holds : ScrapeWorker → Bool
  | .fetch _ => true
  | .release _ => true
  | _ => false

/-- Number of workers holding a pool slot. -/
def holders (s : ScrapeState) : Nat := (s.workers.filter ScrapeWorker.holds).length

/-- The record `scrapePage` yields for `url`, if the fetch and the extraction succeed. -/
def recordOf (fetch : String → Outcome (Except Err Response))
    (parser : Response → SeoData × Option Err) (url : String) : Option SeoData :=
  match fetch url with
  | .ret (.ok res) =>
    match parser res with
    | (data, none) => some data
    | (_, some _) => none
  | _ => none

/-- The records the specification promises for `urls`: one per non-empty URL whose fetch
and extraction succeed, in input order. -/
def expectedRecords (fetch : String → Outcome (Except Err Response))
    (parser : Response → SeoData × Option Err) (urls : List String) : List SeoData :=
  (urls.filter (fun u => decide (u ≠ ""))).filterMap (recordOf fetch parser)

/-- Termination measure of `scrapeUrls`: statements each goroutine has still to run. -/
def ScrapeWorker.weight : ScrapeWorker → Nat
  | .acquire _ => 8
  | .fetch _ => 7
  | .release _ => 6
  | .parse _ => 5
  | .record _ _ => 4
  | .send => 3

/-- Statements the dispatch loop has still to run before it next blocks. -/
def ScrapeMain.weight : ScrapeMain → Nat
  | .done _ => 0
  | .recv => 1
  | .check => 2
  | .iter rest => 3 + 9 * rest.length

/-- Upper bound on the number of steps any schedule can still take from `s`. -/
def scrapeMeasure (s : ScrapeState) : Nat :=
  s.main.weight + (match s.seed with | some batch => 3 + 9 * batch.length | none => 0)
    + (s.workers.map ScrapeWorker.weight).sum + (if s.crashed then 0 else 1)

/-! ## Concrete scenarios -/

/-- A network in which every request is answered with status 200. -/
def fetchOk (url : String) : Outcome (Except Err Response) := .ret (.ok ⟨url, 200, ""⟩)

/-- A network in which every request fails at transport level. -/
def fetchFail (_url : String) : Outcome (Except Err Response) := .ret (.error "timeout")

/-- Scenario A of the specification: the root sitemap lists `sub.xml` and `page1`,
`sub.xml` lists `page2`. -/
def extractA (res : Response) : Except Err (List String) :=
  if res.url = "https://x/sitemap.xml" then .ok ["https://x/sub.xml", "https://x/page1"]
  else if res.url = "https://x/sub.xml" then .ok ["https://x/page2"]
  else .error "no document"

/-- Every document parses and has no `<loc>` entry. -/
def extractNone (_res : Response) : Except Err (List String) := .ok []

/-- Fetch-and-parse as one function from a URL to failure or its `<loc>` texts. -/
def docOf (fetch : String → Outcome (Except Err Response))
    (extractUrls : Response → Except Err (List String)) (url : String) :
    Option (List String) :=
  match fetch url with
  | .ret (.ok res) =>
    match extractUrls res with
    | .ok urls => some urls
    | .error _ => none
  | _ => none

/-- The leaves the specification promises for a batch of container URLs: for every
non-empty URL whose document is obtained, its entries without "xml", then the leaves of
its entries with "xml"; `depth` bounds the nesting. -/
def specLeaves (doc : String → Option (List String)) : Nat → List String → List String
  | 0, _ => []
  | depth + 1, batch =>
    batch.flatMap (fun url =>
      if url = "" then []
      else match doc url with
        | none => []
        | some locs => (isSitemap locs).2 ++ specLeaves doc depth (isSitemap locs).1)

/-- A schedule of scenario A in which the root worker finishes before the loop starts
the worker of `sub.xml`. -/
def earlyReturnSchedule : List Choice :=
  [.main, .seed, .main, .main, .main, .worker 0, .worker 0, .worker 0, .worker 0,
   .worker 0, .main, .main, .main]

/-- A schedule of scenario A in which the loop does not test `n > 0` again before both
workers have finished. -/
def luckySchedule : List Choice :=
  [.main, .seed, .main, .main, .main, .worker 0, .worker 0, .worker 0, .main,
   .worker 0, .worker 0, .worker 0, .worker 0, .worker 0, .worker 0, .main, .main]

/-- A schedule in which the loop blocks in line 74 before the only worker finishes. -/
def blockedSchedule : List Choice :=
  [.main, .seed, .main, .main, .main, .worker 0, .worker 0, .worker 0, .worker 0]

/-- The same for a worker whose fetch fails. -/
def blockedFailSchedule : List Choice :=
  [.main, .seed, .main, .main, .main, .worker 0, .worker 0]

/-- A schedule of scenario A up to the root worker's deferred `n--`. -/
def negativeSchedule : List Choice :=
  [.main, .seed, .main, .main, .main, .worker 0, .worker 0, .worker 0, .worker 0,
   .worker 0]

/-- A transport whose `http.NewRequest` rejects every URL that does not start with
"http". -/
def strictTransport : Transport :=
  { newRequest := fun method url =>
      if startsWith url.data "http".data = true then .ok ⟨method, url, ""⟩
      else .error "missing protocol scheme"
    clientDo := fun req => .ok ⟨req.url, 200, ""⟩
    userAgent := "Mozilla/5.0" }

/-! ## Relational view of `scrapeUrls` and its invariant -/

/-- A statement of a worker that touches nothing but the worker itself, `tokens` and
`results`: lines 208 (with a free place), 209 (returning), 210 (with a buffered
element), 211-227, and 188-192. -/
inductive LocalStep (cap : Nat) (fetch : String → Outcome (Except Err Response))
    (parser : Response → SeoData × Option Err) :
    ScrapeWorker → Nat → List SeoData → ScrapeWorker → Nat → List SeoData → Prop where
  | acquire (url : String) (tokens : Nat) (results : List SeoData) : tokens < cap →
      LocalStep cap fetch parser (.acquire url) tokens results (.fetch url) (tokens + 1) results
  | fetch (url : String) (r : Except Err Response) (tokens : Nat) (results : List SeoData) :
      fetch url = .ret r →
      LocalStep cap fetch parser (.fetch url) tokens results (.release r) tokens results
  | release (r : Except Err Response) (tokens : Nat) (results : List SeoData) : 0 < tokens →
      LocalStep cap fetch parser (.release r) tokens results (.parse r) (tokens - 1) results
  | parse (r : Except Err Response) (tokens : Nat) (results : List SeoData) :
      LocalStep cap fetch parser (.parse r) tokens results
        (.record (scrapePageTail parser r).1 (scrapePageTail parser r).2) tokens results
  | dropped (data : SeoData) (e : Err) (tokens : Nat) (results : List SeoData) :
      LocalStep cap fetch parser (.record data (some e)) tokens results .send tokens results
  | appended (data : SeoData) (tokens : Nat) (results : List SeoData) :
      LocalStep cap fetch parser (.record data none) tokens results .send tokens
        (results ++ [data])

/-- The transitions of `scrapeStep`, one constructor per kind of step. -/
inductive ScrapeTrans (cap : Nat) (fetch : String → Outcome (Except Err Response))
    (parser : Response → SeoData × Option Err) : ScrapeState → ScrapeState → Prop where
  | enter (s : ScrapeState) : s.crashed = false → s.main = .check → 0 < s.activeTasks →
      ScrapeTrans cap fetch parser s { s with main := .recv }
  | leave (s : ScrapeState) : s.crashed = false → s.main = .check → s.activeTasks ≤ 0 →
      ScrapeTrans cap fetch parser s { s with main := .done s.results }
  | batchEnd (s : ScrapeState) : s.crashed = false → s.main = .iter [] →
      ScrapeTrans cap fetch parser s { s with main := .check }
  | spawn (s : ScrapeState) (url : String) (rest : List String) : s.crashed = false →
      s.main = .iter (url :: rest) → url ≠ "" →
      ScrapeTrans cap fetch parser s
        { s with main := .iter rest, activeTasks := s.activeTasks + 1,
                 workers := s.workers ++ [.acquire url], dispatched := s.dispatched + 1 }
  | skip (s : ScrapeState) (rest : List String) : s.crashed = false →
      s.main = .iter ("" :: rest) →
      ScrapeTrans cap fetch parser s { s with main := .iter rest }
  | seed (s : ScrapeState) (batch : List String) : s.crashed = false → s.main = .recv →
      s.seed = some batch →
      ScrapeTrans cap fetch parser s
        { s with main := .iter batch, activeTasks := s.activeTasks - 1, seed := none,
                 received := s.received + 1 }
  | work (s : ScrapeState) (i : Nat) (w v : ScrapeWorker) (tokens : Nat)
      (results : List SeoData) : s.crashed = false → s.workers[i]? = some w →
      LocalStep cap fetch parser w s.tokens s.results v tokens results →
      ScrapeTrans cap fetch parser s
        { s with workers := s.workers.set i v, tokens := tokens, results := results }
  | crash (s : ScrapeState) (i : Nat) (url : String) : s.crashed = false →
      s.workers[i]? = some (.fetch url) → fetch url = .nilDeref →
      ScrapeTrans cap fetch parser s { s with crashed := true }
  | complete (s : ScrapeState) (i : Nat) : s.crashed = false → s.workers[i]? = some .send →
      s.main = .recv →
      ScrapeTrans cap fetch parser s
        { s with main := .iter [], activeTasks := s.activeTasks - 1,
                 workers := s.workers.eraseIdx i, received := s.received + 1 }
  | handoff (s : ScrapeState) (i j : Nat) (url : String) (r : Except Err Response) :
      s.crashed = false → s.workers[i]? = some (.acquire url) →
      s.workers[j]? = some (.release r) → s.tokens = 0 →
      ScrapeTrans cap fetch parser s
        { s with workers := (s.workers.set i (.fetch url)).set j (.parse r) }

/-- 1 for a worker holding a pool slot, else 0. -/
def ScrapeWorker.holdsN (w : ScrapeWorker) : Nat := if w.holds = true then 1 else 0

/-- The record a worker will still append to `results`, if any. -/
def ScrapeWorker.future (fetch : String → Outcome (Except Err Response))
    (parser : Response → SeoData × Option Err) : ScrapeWorker → List SeoData
  | .acquire url => (recordOf fetch parser url).toList
  | .fetch url => (recordOf fetch parser url).toList
  | .release r => if (scrapePageTail parser r).2.isSome = true then []
                  else [(scrapePageTail parser r).1]
  | .parse r => if (scrapePageTail parser r).2.isSome = true then []
                else [(scrapePageTail parser r).1]
  | .record data err => if err.isSome = true then [] else [data]
  | .send => []

/-- URLs received or to be received by the loop and not yet visited by it: the batch of
the seed goroutine and the rest of the batch being visited. -/
def pendingUrls (seed : Option (List String)) (main : ScrapeMain) : List String :=
  (match seed with | some batch => batch | none => []) ++
    (match main with | .iter rest => rest | _ => [])

/-- 1 while the seed goroutine has not delivered its batch, else 0. -/
def seedN (seed : Option (List String)) : Nat := if seed.isSome = true then 1 else 0

/-- Number of non-empty strings in a batch. -/
def nonEmptyCount (urls : List String) : Nat := (urls.filter (fun u => decide (u ≠ ""))).length

/-- The invariant of `scrapeUrls` started on `urls`. -/
structure ScrapeInv (cap : Nat) (fetch : String → Outcome (Except Err Response))
    (parser : Response → SeoData × Option Err) (urls : List String) (s : ScrapeState) :
    Prop where
  tokens_eq : (s.workers.map ScrapeWorker.holdsN).sum = s.tokens
  tokens_le : s.tokens ≤ cap
  active_eq : s.activeTasks = (seedN s.seed : Int) + (s.workers.length : Int)
  recv_pos : s.main = .recv → 0 < s.activeTasks
  done_eq : ∀ res, s.main = .done res → res = s.results
  done_le : ∀ res, s.main = .done res → s.activeTasks ≤ 0
  received_eq : s.received + seedN s.seed + s.workers.length = s.dispatched + 1
  dispatched_eq : s.dispatched + nonEmptyCount (pendingUrls s.seed s.main) = nonEmptyCount urls
  records_eq : ∀ d : SeoData,
    s.results.count d + (s.workers.map (fun w => (w.future fetch parser).count d)).sum
      + (expectedRecords fetch parser (pendingUrls s.seed s.main)).count d
      = (expectedRecords fetch parser urls).count d

/-- Scenario B of the specification: the fetch of `B` fails at transport level, every
other fetch succeeds. -/
def fetchB (url : String) : Outcome (Except Err Response) :=
  if url = "https://x/B" then .ret (.error "connection refused")
  else .ret (.ok ⟨url, 200, "<title>Hello</title>"⟩)

/-- An extractor that finds the title "Hello" in every page. -/
def helloParser (res : Response) : SeoData × Option Err :=
  (⟨res.url, "Hello", "", "", res.statusCode⟩, none)

/-- The leaf set of scenario B. -/
def urlsB : List String := ["https://x/A", "https://x/B"]

/-- In scenario B: both workers are started, then the first takes a pool slot. -/
def oneHolderSchedule : List Choice := [.main, .seed, .main, .main, .worker 0]

/-- In scenario B: both workers are started, then both take a pool slot. -/
def twoHoldersSchedule : List Choice := [.main, .seed, .main, .main, .worker 0, .worker 1]

/-- In scenario B: the workers run one after the other, each to its completion batch. -/
def fullSchedule : List Choice :=
  [.main, .seed, .main, .main, .main, .main,
   .worker 0, .worker 0, .worker 0, .worker 0, .worker 0, .worker 0, .main, .main,
   .worker 0, .worker 0, .worker 0, .worker 0, .worker 0, .worker 0, .main, .main]

/-- With one URL: the worker is started and the loop waits for its completion batch. -/
def waitingSchedule : List Choice := [.main, .seed, .main, .main, .main]

/-- A leaf set whose second entry `http.NewRequest` rejects. -/
def urlsBad : List String := ["https://x/A", ":"]

/-- With `urlsBad`: both workers are started, the second takes the slot and calls
`makeRequest(":")`. -/
def crashSchedule : List Choice := [.main, .seed, .main, .main, .worker 1, .worker 1]

/-- With one URL and `concurrency = 0`: the seed batch has just been received. -/
def seedOnlySchedule : List Choice := [.main, .seed]

end GoWebCrawler

/-! # Theorems -/

namespace GoWebCrawler

/-! ## Schedules and reachability -/

theorem reach_runSchedule {σ : Type} (step : σ → Choice → Option σ) (s0 : σ)
    (cs : List Choice) : ∀ s t : σ, Reach step s0 s → runSchedule step s cs = some t →
    Reach step s0 t := by
  induction cs with
  | nil =>
    intro s t hs h
    simp only [runSchedule, Option.some.injEq] at h
    exact h ▸ hs
  | cons c cs ih =>
    intro s t hs h
    simp only [runSchedule] at h
    cases hc : step s c with
    | none => simp [hc] at h
    | some u =>
      rw [hc] at h
      exact ih u t (Reach.next c hs hc) h

theorem runSchedule_of_reach {σ : Type} (step : σ → Choice → Option σ) (s0 : σ)
    (cs : List Choice) (s t : σ) (c : Choice) (h : runSchedule step s0 cs = some s)
    (hc : step s c = some t) : runSchedule step s0 (cs ++ [c]) = some t := by
  induction cs generalizing s0 with
  | nil =>
    simp only [runSchedule, Option.some.injEq] at h
    subst h
    simp [runSchedule, hc]
  | cons d ds ih =>
    simp only [runSchedule] at h
    cases hd : step s0 d with
    | none => simp [hd] at h
    | some u =>
      rw [hd] at h
      simp only [List.cons_append, runSchedule, hd]
      exact ih u h

theorem reach_iff_runSchedule {σ : Type} (step : σ → Choice → Option σ) (s0 t : σ) :
    Reach step s0 t ↔ ∃ cs, runSchedule step s0 cs = some t := by
  constructor
  · intro h
    induction h with
    | init => exact ⟨[], rfl⟩
    | next c _ hc ih =>
      obtain ⟨cs, hcs⟩ := ih
      exact ⟨cs ++ [c], runSchedule_of_reach step s0 cs _ _ c hcs hc⟩
  · rintro ⟨cs, h⟩
    exact reach_runSchedule step s0 cs s0 t Reach.init h

theorem runSchedule_append {σ : Type} (step : σ → Choice → Option σ) (cs ds : List Choice) :
    ∀ s : σ, runSchedule step s (cs ++ ds)
      = (runSchedule step s cs).bind (fun t => runSchedule step t ds) := by
  induction cs with
  | nil => intro s; rfl
  | cons c cs ih =>
    intro s
    simp only [List.cons_append, runSchedule]
    cases step s c with
    | none => rfl
    | some u => exact ih u

theorem runSchedule_stuck {σ : Type} (step : σ → Choice → Option σ) (s t : σ)
    (hs : Stuck step s) (cs : List Choice) (h : runSchedule step s cs = some t) : t = s := by
  cases cs with
  | nil =>
    simp only [runSchedule, Option.some.injEq] at h
    exact h.symm
  | cons c cs => simp [runSchedule, hs c] at h

/-! ## `strings.Contains` and `isSitemap` -/

theorem startsWith_iff (s sub : List Char) : startsWith s sub = true ↔ sub <+: s := by
  induction s generalizing sub with
  | nil => cases sub <;> simp [startsWith]
  | cons c s ih =>
    cases sub with
    | nil => simp [startsWith]
    | cons d sub =>
      simp only [startsWith, Bool.and_eq_true, beq_iff_eq, ih, List.cons_prefix_cons]
      constructor
      · rintro ⟨h1, h2⟩
        exact ⟨h1.symm, h2⟩
      · rintro ⟨h1, h2⟩
        exact ⟨h1.symm, h2⟩

theorem containsChars_iff (s sub : List Char) : containsChars s sub = true ↔ sub <:+: s := by
  induction s with
  | nil => cases sub <;> simp [containsChars, startsWith]
  | cons c s ih =>
    simp only [containsChars, Bool.or_eq_true, startsWith_iff, ih, List.infix_cons_iff]

theorem foldl_isSitemapStep (urls : List String) (acc : List String × List String) :
    urls.foldl isSitemapStep acc =
      (acc.1 ++ urls.filter (fun u => Contains u "xml"),
       acc.2 ++ urls.filter (fun u => !Contains u "xml")) := by
  induction urls generalizing acc with
  | nil => simp
  | cons u urls ih =>
    rw [List.foldl_cons, ih]
    by_cases h : Contains u "xml" = true
    · simp [isSitemapStep, h, List.filter_cons]
    · simp [isSitemapStep, h, List.filter_cons]

/-- C2: `isSitemap` returns the entries containing "xml" and the entries not containing
it, each in input order with duplicates kept; containing "xml" means that the three
characters occur contiguously, case-sensitively. -/
theorem isSitemap_partitions (urls : List String) :
    (isSitemap urls).1 = urls.filter (fun u => Contains u "xml") ∧
    (isSitemap urls).2 = urls.filter (fun u => !Contains u "xml") ∧
    (∀ u : String, Contains u "xml" = true ↔
      ∃ pre post : List Char, pre ++ ['x', 'm', 'l'] ++ post = u.data) ∧
    (∀ u : String, u ∈ (isSitemap urls).1 ↔ u ∈ urls ∧ Contains u "xml" = true) ∧
    (∀ u : String, u ∈ (isSitemap urls).2 ↔ u ∈ urls ∧ Contains u "xml" = false) ∧
    isSitemap ["https://x/a.xml", "https://x/xmlfoo/page", "https://x/A.XML", "https://x/a.xml"]
      = (["https://x/a.xml", "https://x/xmlfoo/page", "https://x/a.xml"], ["https://x/A.XML"]) := by
  have h := foldl_isSitemapStep urls ([], [])
  simp only [List.nil_append] at h
  unfold isSitemap
  rw [h]
  refine ⟨rfl, rfl, ?_, ?_, ?_, by decide⟩
  · intro u
    exact containsChars_iff u.data ['x', 'm', 'l']
  · intro u
    simp [List.mem_filter]
  · intro u
    simp [List.mem_filter]

/-! ## `makeRequest` and `scrapePage` -/

/-- C8 (the code differs): when `http.NewRequest` fails for `url`, `makeRequest` does
not return `(nil, err)`: it dereferences the nil request in line 117.  `scrapePage` dies
with it while holding a pool slot, and a `scrapeUrls` worker that reaches the call takes
the whole process down: afterwards no goroutine moves and the loop has not returned. -/
theorem makeRequest_nil_request (tr : Transport) (url : String) (e : Err)
    (h : tr.newRequest "GET" url = .error e) :
    makeRequest tr url = .nilDeref ∧
    makeRequest tr url ≠ .ret (.error e) ∧
    (∀ (parser : Response → SeoData × Option Err) (cap used : Nat), used < cap →
      scrapePage (makeRequest tr) parser url cap used
        = .nilDeref (used + 1) [.acquire, .fetch url]) ∧
    (∀ (parser : Response → SeoData × Option Err) (cap : Nat) (s : ScrapeState) (i : Nat),
      s.crashed = false → s.workers[i]? = some (.fetch url) →
      ∃ t, scrapeStep cap (makeRequest tr) parser s (.worker i) = some t ∧
        t.main = s.main ∧ t.results = s.results ∧
        Stuck (scrapeStep cap (makeRequest tr) parser) t) := by
  have hm : makeRequest tr url = .nilDeref := by simp [makeRequest, h]
  refine ⟨hm, by simp [hm], ?_, ?_⟩
  · intro parser cap used hlt
    simp [scrapePage, hlt, hm]
  · intro parser cap s i hc hw
    refine ⟨{ s with crashed := true }, ?_, rfl, rfl, ?_⟩
    · simp [scrapeStep, hc, scrapeWorkerStep, hw, hm]
    · intro c
      cases c <;> simp [scrapeStep]

theorem makeRequest_nil_request_witness :
    strictTransport.newRequest "GET" ":" = .error "missing protocol scheme" ∧
    makeRequest strictTransport ":" = .nilDeref :=
  ⟨by decide, (makeRequest_nil_request strictTransport ":" "missing protocol scheme"
    (by decide)).1⟩

/-- C9: when the fetch returns, `scrapePage` performs acquire, fetch, release in this
order and then, only if the fetch succeeded, the extraction; the pool holds as many
elements afterwards as before; the returned error is non-nil exactly when the fetch or
the extraction returned one, and then the record is the zero `SeoData`; otherwise the
record is the extractor's.  (With no free slot the call waits in line 208 and has done
nothing.) -/
theorem scrapePage_frame (fetch : String → Outcome (Except Err Response))
    (parser : Response → SeoData × Option Err) (url : String) (cap used : Nat)
    (r : Except Err Response) (hret : fetch url = .ret r) :
    (cap ≤ used → scrapePage fetch parser url cap used = .blocked used []) ∧
    (used < cap → ∃ data err log,
      scrapePage fetch parser url cap used = .ret data err used log ∧
      log = [.acquire, .fetch url, .release] ++
        (match r with | .ok res => [Event.parse res] | .error _ => []) ∧
      (err.isSome = true ↔
        (∃ e, r = .error e) ∨ ∃ res, r = .ok res ∧ (parser res).2.isSome = true) ∧
      (err.isSome = true → data = SeoData.zero) ∧
      (err = none → ∃ res, r = .ok res ∧ data = (parser res).1) ∧
      scrapePageTail parser r = (data, err)) := by
  constructor
  · intro h
    simp [scrapePage, Nat.not_lt.mpr h]
  · intro h
    cases r with
    | error e =>
      refine ⟨SeoData.zero, some e, _, ?_, rfl, ?_, ?_, ?_, ?_⟩
      · simp [scrapePage, h, hret]
      · simp
      · simp
      · simp
      · simp [scrapePageTail]
    | ok res =>
      cases hp : parser res with
      | mk d oe =>
        cases oe with
        | some e =>
          refine ⟨SeoData.zero, some e, _, ?_, rfl, ?_, ?_, ?_, ?_⟩
          · simp [scrapePage, h, hret, hp]
          · simp [hp]
          · simp
          · simp
          · simp [scrapePageTail, hp]
        | none =>
          refine ⟨d, none, _, ?_, rfl, ?_, ?_, ?_, ?_⟩
          · simp [scrapePage, h, hret, hp]
          · simp [hp]
          · simp
          · simp [hp]
          · simp [scrapePageTail, hp]

theorem scrapePage_frame_witness :
    fetchB "https://x/A" = .ret (.ok ⟨"https://x/A", 200, "<title>Hello</title>"⟩) ∧
    scrapePage fetchB helloParser "https://x/A" 2 1
      = .ret ⟨"https://x/A", "Hello", "", "", 200⟩ none 1
          [.acquire, .fetch "https://x/A", .release,
           .parse ⟨"https://x/A", 200, "<title>Hello</title>"⟩] ∧
    scrapePage fetchB helloParser "https://x/B" 2 1
      = .ret SeoData.zero (some "connection refused") 1
          [.acquire, .fetch "https://x/B", .release] ∧
    (2 ≤ 2 → scrapePage fetchB helloParser "https://x/A" 2 2 = .blocked 2 []) :=
  ⟨by decide, by decide, by decide,
   (scrapePage_frame fetchB helloParser "https://x/A" 2 2
      (.ok ⟨"https://x/A", 200, "<title>Hello</title>"⟩) (by decide)).1⟩

/-! ## `extractSitemapURLs` -/

/-- C1 (the code differs): in scenario A the specification promises `page1` and `page2`,
but under `earlyReturnSchedule` the call returns `[page1]` alone, the worker of `sub.xml`
not having started its request.  The root worker's batch is received (`n--`, line 75)
and the root worker also runs its deferred `n--` (line 82), so `n` is 0 at the test of
line 72 although a worker is live.  Under `luckySchedule` the call returns both pages,
with `n = -1`. -/
theorem extractSitemapURLs_early_return :
    specLeaves (docOf fetchOk extractA) 2 ["https://x/sitemap.xml"]
      = ["https://x/page1", "https://x/page2"] ∧
    runSchedule (crawlStep fetchOk extractA) (crawlInit "https://x/sitemap.xml")
      earlyReturnSchedule = some
        { main := .done ["https://x/page1"], n := 0, seed := none,
          workers := [.request "https://x/sub.xml"], toCrawl := ["https://x/page1"],
          crashed := false } ∧
    runSchedule (crawlStep fetchOk extractA) (crawlInit "https://x/sitemap.xml")
      luckySchedule = some
        { main := .done ["https://x/page1", "https://x/page2"], n := -1, seed := none,
          workers := [], toCrawl := ["https://x/page1", "https://x/page2"],
          crashed := false } ∧
    extractSitemapURLs fetchOk extractA "https://x/sitemap.xml" earlyReturnSchedule
      = some ["https://x/page1"] ∧
    extractSitemapURLs fetchOk extractA "https://x/sitemap.xml" luckySchedule
      = some ["https://x/page1", "https://x/page2"] ∧
    ¬ List.Perm ["https://x/page1"]
        (specLeaves (docOf fetchOk extractA) 2 ["https://x/sitemap.xml"]) := by
  refine ⟨by decide, by decide, by decide, by decide, by decide, ?_⟩
  intro h
  have hlen := h.length_eq
  have hs : specLeaves (docOf fetchOk extractA) 2 ["https://x/sitemap.xml"]
      = ["https://x/page1", "https://x/page2"] := by decide
  rw [hs] at hlen
  simp at hlen

/-- C3 (the code differs): with a root document without `<loc>` entries, and also when
the only fetch fails, there is a scheduling under which `extractSitemapURLs` never
returns: the loop tests `n > 0` while the worker is live, blocks in line 74, the worker
ends without sending, and then nothing can move: however the schedule is continued, the
call does not return. -/
theorem extractSitemapURLs_can_block :
    (∃ s, runSchedule (crawlStep fetchOk extractNone) (crawlInit "https://x/sitemap.xml")
        blockedSchedule = some s ∧
      s.main = .recv ∧ s.n = 0 ∧ s.workers = [] ∧ s.crashed = false ∧
      Stuck (crawlStep fetchOk extractNone) s) ∧
    (∀ cs, extractSitemapURLs fetchOk extractNone "https://x/sitemap.xml"
        (blockedSchedule ++ cs) = none) ∧
    (∃ s, runSchedule (crawlStep fetchFail extractNone) (crawlInit "https://x/sitemap.xml")
        blockedFailSchedule = some s ∧
      s.main = .recv ∧ s.n = 0 ∧ s.workers = [] ∧ s.crashed = false ∧
      Stuck (crawlStep fetchFail extractNone) s) ∧
    (∀ cs, extractSitemapURLs fetchFail extractNone "https://x/sitemap.xml"
        (blockedFailSchedule ++ cs) = none) := by
  have hstuck : ∀ (fetch : String → Outcome (Except Err Response)),
      Stuck (crawlStep fetch extractNone)
        { main := .recv, n := 0, seed := none, workers := [], toCrawl := [],
          crashed := false } := by
    intro fetch c
    cases c <;> simp [crawlStep, crawlMainStep, crawlSeedStep, crawlWorkerStep]
  have hnone : ∀ (fetch : String → Outcome (Except Err Response)) (sched cs : List Choice),
      runSchedule (crawlStep fetch extractNone) (crawlInit "https://x/sitemap.xml") sched
        = some { main := .recv, n := 0, seed := none, workers := [], toCrawl := [],
                 crashed := false } →
      extractSitemapURLs fetch extractNone "https://x/sitemap.xml" (sched ++ cs) = none := by
    intro fetch sched cs h
    unfold extractSitemapURLs
    rw [runSchedule_append, h]
    simp only [Option.bind]
    cases hr : runSchedule (crawlStep fetch extractNone)
        { main := .recv, n := 0, seed := none, workers := [], toCrawl := [],
          crashed := false } cs with
    | none => rfl
    | some t =>
      have := runSchedule_stuck _ _ t (hstuck fetch) cs hr
      subst this
      rfl
  refine ⟨⟨_, by decide, rfl, rfl, rfl, rfl, hstuck fetchOk⟩,
    fun cs => hnone fetchOk blockedSchedule cs (by decide),
    ⟨_, by decide, rfl, rfl, rfl, rfl, hstuck fetchFail⟩,
    fun cs => hnone fetchFail blockedFailSchedule cs (by decide)⟩

/-- C7 (the code differs): `n` starts at 1, but in scenario A a state with `n = -1` is
reachable, so `n` is negative and differs from the number of outstanding units; and a
state is reachable in which the loop has returned although a worker is outstanding. -/
theorem extractSitemapURLs_counter_negative :
    (crawlInit "https://x/sitemap.xml").n = 1 ∧
    (∃ s, Reach (crawlStep fetchOk extractA) (crawlInit "https://x/sitemap.xml") s ∧
      s.n = -1 ∧ crawlOutstanding s = 0 ∧ s.main = .iter ["https://x/sub.xml"]) ∧
    (∃ s result, Reach (crawlStep fetchOk extractA) (crawlInit "https://x/sitemap.xml") s ∧
      s.main = .done result ∧ s.n = 0 ∧ crawlOutstanding s = 1) := by
  refine ⟨rfl, ?_, ?_⟩
  · refine ⟨{ main := .iter ["https://x/sub.xml"], n := -1, seed := none, workers := [],
              toCrawl := ["https://x/page1"], crashed := false }, ?_, rfl, rfl, rfl⟩
    exact reach_runSchedule _ _ negativeSchedule _ _ Reach.init (by decide)
  · refine ⟨{ main := .done ["https://x/page1"], n := 0, seed := none,
              workers := [.request "https://x/sub.xml"], toCrawl := ["https://x/page1"],
              crashed := false }, _, ?_, rfl, rfl, rfl⟩
    exact reach_runSchedule _ _ (negativeSchedule ++ [.main, .main, .main]) _ _
      Reach.init (by decide)

/-! ## `scrapeUrls`: every step is one of the transitions -/

theorem scrapeStep_trans (cap : Nat) (fetch : String → Outcome (Except Err Response))
    (parser : Response → SeoData × Option Err) (s t : ScrapeState) (c : Choice)
    (h : scrapeStep cap fetch parser s c = some t) : ScrapeTrans cap fetch parser s t := by
  have hc : s.crashed = false := by
    cases hcr : s.crashed with
    | false => rfl
    | true => cases c <;> simp [scrapeStep, hcr] at h
  cases c with
  | main =>
    simp only [scrapeStep, hc, Bool.false_eq_true, if_false] at h
    unfold scrapeMainStep at h
    split at h
    · rename_i hm
      split at h
      · rename_i hpos
        cases h
        exact ScrapeTrans.enter s hc hm hpos
      · rename_i hpos
        cases h
        exact ScrapeTrans.leave s hc hm (not_lt.mp hpos)
    · cases h
    · rename_i hm
      cases h
      exact ScrapeTrans.batchEnd s hc hm
    · rename_i url rest hm
      split at h
      · rename_i hne
        cases h
        exact ScrapeTrans.spawn s url rest hc hm hne
      · rename_i hne
        cases h
        have : url = "" := not_not.mp hne
        subst this
        exact ScrapeTrans.skip s rest hc hm
    · cases h
  | seed =>
    simp only [scrapeStep, hc, Bool.false_eq_true, if_false] at h
    unfold scrapeSeedStep at h
    split at h
    · rename_i batch hm hs
      cases h
      exact ScrapeTrans.seed s batch hc hm hs
    · cases h
  | worker i =>
    simp only [scrapeStep, hc, Bool.false_eq_true, if_false] at h
    unfold scrapeWorkerStep at h
    split at h
    · cases h
    · rename_i url hw
      split at h
      · rename_i hlt
        cases h
        exact ScrapeTrans.work s i _ _ _ _ hc hw (LocalStep.acquire url s.tokens s.results hlt)
      · cases h
    · rename_i url hw
      split at h
      · rename_i hf
        cases h
        exact ScrapeTrans.crash s i url hc hw hf
      · rename_i r hf
        cases h
        exact ScrapeTrans.work s i _ _ _ _ hc hw (LocalStep.fetch url r s.tokens s.results hf)
    · rename_i r hw
      split at h
      · rename_i hpos
        cases h
        exact ScrapeTrans.work s i _ _ _ _ hc hw (LocalStep.release r s.tokens s.results hpos)
      · cases h
    · rename_i r hw
      cases h
      exact ScrapeTrans.work s i _ _ _ _ hc hw (LocalStep.parse r s.tokens s.results)
    · rename_i data err hw
      split at h
      · rename_i e
        cases h
        exact ScrapeTrans.work s i _ _ _ _ hc hw (LocalStep.dropped data e s.tokens s.results)
      · cases h
        exact ScrapeTrans.work s i _ _ _ _ hc hw (LocalStep.appended data s.tokens s.results)
    · rename_i hw
      split at h
      · rename_i hm
        cases h
        exact ScrapeTrans.complete s i hc hw hm
      · cases h
  | handoff i j =>
    simp only [scrapeStep, hc, Bool.false_eq_true, if_false] at h
    unfold scrapeHandoffStep at h
    split at h
    · rename_i url r hi hj
      split at h
      · rename_i h0
        cases h
        exact ScrapeTrans.handoff s i j url r hc hi hj h0
      · cases h
    · cases h

/-! ## List bookkeeping -/

theorem sum_map_set {α : Type} (f : α → Nat) (l : List α) (i : Nat) (a b : α)
    (h : l[i]? = some a) : ((l.set i b).map f).sum + f a = (l.map f).sum + f b := by
  induction l generalizing i with
  | nil => simp at h
  | cons x l ih =>
    cases i with
    | zero =>
      simp only [List.getElem?_cons_zero, Option.some.injEq] at h
      subst h
      simp only [List.set_cons_zero, List.map_cons, List.sum_cons]
      omega
    | succ i =>
      simp only [List.getElem?_cons_succ] at h
      have := ih i h
      simp only [List.set_cons_succ, List.map_cons, List.sum_cons]
      omega

theorem sum_map_eraseIdx {α : Type} (f : α → Nat) (l : List α) (i : Nat) (a : α)
    (h : l[i]? = some a) : ((l.eraseIdx i).map f).sum + f a = (l.map f).sum := by
  induction l generalizing i with
  | nil => simp at h
  | cons x l ih =>
    cases i with
    | zero =>
      simp only [List.getElem?_cons_zero, Option.some.injEq] at h
      subst h
      simp only [List.eraseIdx_cons_zero, List.map_cons, List.sum_cons]
      omega
    | succ i =>
      simp only [List.getElem?_cons_succ] at h
      have := ih i h
      simp only [List.eraseIdx_cons_succ, List.map_cons, List.sum_cons]
      omega

theorem length_eq_sum_one {α : Type} (l : List α) : l.length = (l.map (fun _ => 1)).sum := by
  induction l with
  | nil => rfl
  | cons x l ih => simp only [List.length_cons, List.map_cons, List.sum_cons, ih]; omega

theorem length_pos_of_getElem? {α : Type} (l : List α) (i : Nat) (a : α)
    (h : l[i]? = some a) : 0 < l.length := by
  cases l with
  | nil => simp at h
  | cons x l => simp

theorem length_eraseIdx_succ {α : Type} (l : List α) (i : Nat) (a : α)
    (h : l[i]? = some a) : (l.eraseIdx i).length + 1 = l.length := by
  have := sum_map_eraseIdx (fun _ => 1) l i a h
  rw [← length_eq_sum_one, ← length_eq_sum_one] at this
  exact this

theorem sum_map_set_set {α : Type} (f : α → Nat) (l : List α) (i j : Nat) (a b x y : α)
    (hi : l[i]? = some a) (hj : l[j]? = some b) (hab : a ≠ b) :
    (((l.set i x).set j y).map f).sum + f a + f b = (l.map f).sum + f x + f y := by
  have hij : i ≠ j := by
    intro e
    subst e
    rw [hi] at hj
    exact hab (Option.some.inj hj)
  have h1 := sum_map_set f l i a x hi
  have hj2 : (l.set i x)[j]? = some b := by
    rw [List.getElem?_set_ne hij]
    exact hj
  have h2 := sum_map_set f (l.set i x) j b y hj2
  omega

theorem filter_length_eq_sum {α : Type} (p : α → Bool) (l : List α) :
    (l.filter p).length = (l.map (fun a => if p a = true then 1 else 0)).sum := by
  induction l with
  | nil => rfl
  | cons x l ih =>
    by_cases hx : p x = true
    · simp only [List.filter_cons, hx, if_true, List.length_cons, List.map_cons,
        List.sum_cons, ih]
      omega
    · simp only [List.filter_cons, hx, Bool.false_eq_true, if_false, List.map_cons,
        List.sum_cons]
      omega

theorem holders_eq_sum (s : ScrapeState) :
    holders s = (s.workers.map ScrapeWorker.holdsN).sum :=
  filter_length_eq_sum ScrapeWorker.holds s.workers

/-! ## Expected records of a batch -/

theorem nonEmptyCount_append (a b : List String) :
    nonEmptyCount (a ++ b) = nonEmptyCount a + nonEmptyCount b := by
  simp [nonEmptyCount, List.filter_append]

theorem nonEmptyCount_cons_ne (u : String) (l : List String) (h : u ≠ "") :
    nonEmptyCount (u :: l) = nonEmptyCount l + 1 := by
  simp [nonEmptyCount, List.filter_cons, h]

theorem nonEmptyCount_cons_empty (l : List String) :
    nonEmptyCount ("" :: l) = nonEmptyCount l := by
  simp [nonEmptyCount, List.filter_cons]

theorem expectedRecords_append (fetch : String → Outcome (Except Err Response))
    (parser : Response → SeoData × Option Err) (a b : List String) :
    expectedRecords fetch parser (a ++ b)
      = expectedRecords fetch parser a ++ expectedRecords fetch parser b := by
  simp [expectedRecords, List.filter_append, List.filterMap_append]

theorem expectedRecords_cons_ne (fetch : String → Outcome (Except Err Response))
    (parser : Response → SeoData × Option Err) (u : String) (l : List String) (h : u ≠ "") :
    expectedRecords fetch parser (u :: l)
      = (recordOf fetch parser u).toList ++ expectedRecords fetch parser l := by
  cases hr : recordOf fetch parser u <;>
    simp [expectedRecords, List.filter_cons, h, List.filterMap_cons, hr]

theorem expectedRecords_cons_empty (fetch : String → Outcome (Except Err Response))
    (parser : Response → SeoData × Option Err) (l : List String) :
    expectedRecords fetch parser ("" :: l) = expectedRecords fetch parser l := by
  simp [expectedRecords, List.filter_cons]

theorem future_acquire (fetch : String → Outcome (Except Err Response))
    (parser : Response → SeoData × Option Err) (url : String) :
    (ScrapeWorker.acquire url).future fetch parser = (recordOf fetch parser url).toList := rfl

theorem future_fetch (fetch : String → Outcome (Except Err Response))
    (parser : Response → SeoData × Option Err) (url : String) :
    (ScrapeWorker.fetch url).future fetch parser = (recordOf fetch parser url).toList := rfl

theorem future_release (fetch : String → Outcome (Except Err Response))
    (parser : Response → SeoData × Option Err) (r : Except Err Response) :
    (ScrapeWorker.release r).future fetch parser =
      if (scrapePageTail parser r).2.isSome = true then []
      else [(scrapePageTail parser r).1] := rfl

theorem future_parse (fetch : String → Outcome (Except Err Response))
    (parser : Response → SeoData × Option Err) (r : Except Err Response) :
    (ScrapeWorker.parse r).future fetch parser =
      if (scrapePageTail parser r).2.isSome = true then []
      else [(scrapePageTail parser r).1] := rfl

theorem future_record (fetch : String → Outcome (Except Err Response))
    (parser : Response → SeoData × Option Err) (data : SeoData) (err : Option Err) :
    (ScrapeWorker.record data err).future fetch parser =
      if err.isSome = true then [] else [data] := rfl

theorem future_send (fetch : String → Outcome (Except Err Response))
    (parser : Response → SeoData × Option Err) :
    ScrapeWorker.send.future fetch parser = [] := rfl

theorem recordOf_of_ret (fetch : String → Outcome (Except Err Response))
    (parser : Response → SeoData × Option Err) (url : String) (r : Except Err Response)
    (h : fetch url = .ret r) :
    (recordOf fetch parser url).toList =
      if (scrapePageTail parser r).2.isSome = true then []
      else [(scrapePageTail parser r).1] := by
  cases r with
  | error e => simp [recordOf, h, scrapePageTail]
  | ok res =>
    cases hp : parser res with
    | mk d oe =>
      cases oe <;> simp [recordOf, h, scrapePageTail, hp]

/-! ## `scrapeUrls`: the invariant holds in every reachable state -/

theorem scrapeInv_init (cap : Nat) (fetch : String → Outcome (Except Err Response))
    (parser : Response → SeoData × Option Err) (urls : List String) :
    ScrapeInv cap fetch parser urls (scrapeInit urls) := by
  refine ⟨rfl, Nat.zero_le _, ?_, ?_, ?_, ?_, ?_, ?_, ?_⟩
  · simp [scrapeInit, seedN]
  · intro h; cases h
  · intro res h; cases h
  · intro res h; cases h
  · simp [scrapeInit, seedN]
  · simp [scrapeInit, pendingUrls]
  · intro d; simp [scrapeInit, pendingUrls]

theorem scrapeInv_trans (cap : Nat) (fetch : String → Outcome (Except Err Response))
    (parser : Response → SeoData × Option Err) (urls : List String) (s t : ScrapeState)
    (h : ScrapeInv cap fetch parser urls s) (ht : ScrapeTrans cap fetch parser s t) :
    ScrapeInv cap fetch parser urls t := by
  obtain ⟨h1, h2, h3, h4, h5, h6, h7, h8, h9⟩ := h
  cases ht with
  | enter hc hm hpos =>
    refine ⟨h1, h2, h3, fun _ => hpos, ?_, ?_, h7, ?_, ?_⟩
    · intro res hres; cases hres
    · intro res hres; cases hres
    · simpa [pendingUrls, hm] using h8
    · simpa [pendingUrls, hm] using h9
  | leave hc hm hle =>
    refine ⟨h1, h2, h3, ?_, ?_, ?_, h7, ?_, ?_⟩
    · intro hres; cases hres
    · intro res hres; cases hres; rfl
    · intro res hres; exact hle
    · simpa [pendingUrls, hm] using h8
    · simpa [pendingUrls, hm] using h9
  | batchEnd hc hm =>
    refine ⟨h1, h2, h3, ?_, ?_, ?_, h7, ?_, ?_⟩
    · intro hres; cases hres
    · intro res hres; cases hres
    · intro res hres; cases hres
    · simpa [pendingUrls, hm] using h8
    · simpa [pendingUrls, hm] using h9
  | skip rest hc hm =>
    refine ⟨h1, h2, h3, ?_, ?_, ?_, h7, ?_, ?_⟩
    · intro hres; cases hres
    · intro res hres; cases hres
    · intro res hres; cases hres
    · simpa [pendingUrls, hm, nonEmptyCount_append, nonEmptyCount_cons_empty] using h8
    · simpa [pendingUrls, hm, expectedRecords_append, expectedRecords_cons_empty] using h9
  | spawn url rest hc hm hne =>
    refine ⟨?_, h2, ?_, ?_, ?_, ?_, ?_, ?_, ?_⟩
    · simpa [ScrapeWorker.holdsN, ScrapeWorker.holds] using h1
    · simp only [List.length_append, List.length_singleton]
      push_cast
      omega
    · intro hres; cases hres
    · intro res hres; cases hres
    · intro res hres; cases hres
    · simp only [List.length_append, List.length_singleton]
      omega
    · simp only [pendingUrls, hm, nonEmptyCount_append, nonEmptyCount_cons_ne _ _ hne] at h8 ⊢
      omega
    · intro d
      have := h9 d
      simp only [pendingUrls, hm, expectedRecords_append, expectedRecords_cons_ne _ _ _ _ hne,
        List.count_append, List.map_append, List.sum_append, List.map_cons, List.map_nil,
        List.sum_cons, List.sum_nil, future_acquire] at this ⊢
      omega
  | seed batch hc hm hs =>
    have e1 : seedN s.seed = 1 := by simp [seedN, hs]
    have e0 : seedN (none : Option (List String)) = 0 := by simp [seedN]
    refine ⟨h1, h2, ?_, ?_, ?_, ?_, ?_, ?_, ?_⟩
    · simp only [e0]
      rw [e1] at h3
      push_cast at h3 ⊢
      omega
    · intro hres; cases hres
    · intro res hres; cases hres
    · intro res hres; cases hres
    · simp only [e0]
      omega
    · simpa [pendingUrls, hm, hs] using h8
    · simpa [pendingUrls, hm, hs] using h9
  | work i w v tokens results hc hw hl =>
    have hlen : (s.workers.set i v).length = s.workers.length := List.length_set _ _ _
    have hpos := length_pos_of_getElem? _ _ _ hw
    have hH := sum_map_set ScrapeWorker.holdsN s.workers i w v hw
    have hF := fun d : SeoData =>
      sum_map_set (fun w => (w.future fetch parser).count d) s.workers i w v hw
    have hnd : ∀ res, s.main ≠ .done res := by
      intro res hres
      have := h6 res hres
      omega
    refine ⟨?_, ?_, ?_, h4, fun res hres => absurd hres (hnd res), h6, ?_, h8, ?_⟩
    · cases hl <;> simp [ScrapeWorker.holdsN, ScrapeWorker.holds] at hH ⊢ <;> omega
    · cases hl <;> simp only [] <;> omega
    · simp only [hlen]
      exact h3
    · simp only [hlen]
      exact h7
    · intro d
      have hFd := hF d
      have h9d := h9 d
      cases hl with
      | acquire url _ _ hlt =>
        simp only [future_acquire, future_fetch] at hFd ⊢
        omega
      | fetch url r _ _ hf =>
        simp only [future_fetch, future_release, recordOf_of_ret fetch parser url r hf]
          at hFd ⊢
        omega
      | release r _ _ hp =>
        simp only [future_release, future_parse] at hFd ⊢
        omega
      | parse r =>
        simp only [future_parse, future_record] at hFd ⊢
        omega
      | dropped data e =>
        simp only [future_record, future_send, Option.isSome_some, if_true, List.count_nil]
          at hFd ⊢
        omega
      | appended data =>
        simp only [future_record, future_send, Option.isSome_none, Bool.false_eq_true,
          if_false, List.count_nil, List.count_append] at hFd ⊢
        omega
  | crash i url hc hw hf => exact ⟨h1, h2, h3, h4, h5, h6, h7, h8, h9⟩
  | complete i hc hw hm =>
    have hlen := length_eraseIdx_succ _ _ _ hw
    have hH := sum_map_eraseIdx ScrapeWorker.holdsN s.workers i _ hw
    have hF := fun d : SeoData =>
      sum_map_eraseIdx (fun w => (w.future fetch parser).count d) s.workers i _ hw
    refine ⟨?_, h2, ?_, ?_, ?_, ?_, ?_, ?_, ?_⟩
    · simp only [ScrapeWorker.holdsN, ScrapeWorker.holds] at hH ⊢
      simp at hH
      omega
    · simp only []
      omega
    · intro hres; cases hres
    · intro res hres; cases hres
    · intro res hres; cases hres
    · simp only []
      omega
    · simpa [pendingUrls, hm] using h8
    · intro d
      have hFd := hF d
      have h9d := h9 d
      simp only [future_send, List.count_nil, pendingUrls, hm] at hFd h9d ⊢
      omega
  | handoff i j url r hc hi hj h0 =>
    have hlen : ((s.workers.set i (ScrapeWorker.fetch url)).set j (.parse r)).length
        = s.workers.length := by
      rw [List.length_set, List.length_set]
    have hne : ScrapeWorker.acquire url ≠ ScrapeWorker.release r := by
      intro e; cases e
    have hH := sum_map_set_set ScrapeWorker.holdsN s.workers i j _ _
      (ScrapeWorker.fetch url) (ScrapeWorker.parse r) hi hj hne
    have hF := fun d : SeoData =>
      sum_map_set_set (fun w => (w.future fetch parser).count d) s.workers i j _ _
        (ScrapeWorker.fetch url) (ScrapeWorker.parse r) hi hj hne
    have hpos := length_pos_of_getElem? _ _ _ hi
    have hnd : ∀ res, s.main ≠ .done res := by
      intro res hres
      have := h6 res hres
      omega
    refine ⟨?_, h2, ?_, h4, fun res hres => absurd hres (hnd res), h6, ?_, h8, ?_⟩
    · simp [ScrapeWorker.holdsN, ScrapeWorker.holds] at hH ⊢
      omega
    · simp only [hlen]
      exact h3
    · simp only [hlen]
      exact h7
    · intro d
      have hFd := hF d
      have h9d := h9 d
      simp only [future_acquire, future_fetch, future_release, future_parse] at hFd ⊢
      omega

theorem scrapeInv_reach (cap : Nat) (fetch : String → Outcome (Except Err Response))
    (parser : Response → SeoData × Option Err) (urls : List String) (s : ScrapeState)
    (h : Reach (scrapeStep cap fetch parser) (scrapeInit urls) s) :
    ScrapeInv cap fetch parser urls s := by
  induction h with
  | init => exact scrapeInv_init cap fetch parser urls
  | next c _ hc ih =>
    exact scrapeInv_trans cap fetch parser urls _ _ ih (scrapeStep_trans cap fetch parser _ _ c hc)

/-! ## `scrapeUrls`: every step lowers the measure -/

theorem scrapeMeasure_trans (cap : Nat) (fetch : String → Outcome (Except Err Response))
    (parser : Response → SeoData × Option Err) (s t : ScrapeState)
    (ht : ScrapeTrans cap fetch parser s t) : scrapeMeasure t < scrapeMeasure s := by
  cases ht with
  | enter hc hm hpos => simp [scrapeMeasure, hm, ScrapeMain.weight]
  | leave hc hm hle => simp [scrapeMeasure, hm, ScrapeMain.weight]
  | batchEnd hc hm => simp [scrapeMeasure, hm, ScrapeMain.weight]
  | skip rest hc hm =>
    simp only [scrapeMeasure, hm, ScrapeMain.weight, List.length_cons]
    omega
  | spawn url rest hc hm hne =>
    simp only [scrapeMeasure, hm, ScrapeMain.weight, List.length_cons, List.map_append,
      List.sum_append, List.map_cons, List.map_nil, List.sum_cons, List.sum_nil,
      ScrapeWorker.weight]
    omega
  | seed batch hc hm hs =>
    simp only [scrapeMeasure, hm, hs, ScrapeMain.weight]
    omega
  | work i w v tokens results hc hw hl =>
    have hW := sum_map_set ScrapeWorker.weight s.workers i w v hw
    simp only [scrapeMeasure]
    cases hl <;> simp only [ScrapeWorker.weight] at hW <;> omega
  | crash i url hc hw hf =>
    simp only [scrapeMeasure, hc]
    simp
  | complete i hc hw hm =>
    have hW := sum_map_eraseIdx ScrapeWorker.weight s.workers i _ hw
    simp only [ScrapeWorker.weight] at hW
    simp only [scrapeMeasure, hm, ScrapeMain.weight, List.length_nil]
    omega
  | handoff i j url r hc hi hj h0 =>
    have hne : ScrapeWorker.acquire url ≠ ScrapeWorker.release r := by
      intro e; cases e
    have hW := sum_map_set_set ScrapeWorker.weight s.workers i j _ _
      (ScrapeWorker.fetch url) (ScrapeWorker.parse r) hi hj hne
    simp only [ScrapeWorker.weight] at hW
    simp only [scrapeMeasure]
    omega

theorem scrapeMeasure_runSchedule (cap : Nat) (fetch : String → Outcome (Except Err Response))
    (parser : Response → SeoData × Option Err) (cs : List Choice) :
    ∀ s t : ScrapeState, runSchedule (scrapeStep cap fetch parser) s cs = some t →
      cs.length + scrapeMeasure t ≤ scrapeMeasure s := by
  induction cs with
  | nil =>
    intro s t h
    simp only [runSchedule, Option.some.injEq] at h
    subst h
    simp
  | cons c cs ih =>
    intro s t h
    simp only [runSchedule] at h
    cases hc : scrapeStep cap fetch parser s c with
    | none => simp [hc] at h
    | some u =>
      rw [hc] at h
      have h1 := ih u t h
      have h2 := scrapeMeasure_trans cap fetch parser s u
        (scrapeStep_trans cap fetch parser s u c hc)
      simp only [List.length_cons]
      omega

/-- From every reachable state some scheduling leads to a state where nothing can move. -/
theorem scrape_reach_stuck (cap : Nat) (fetch : String → Outcome (Except Err Response))
    (parser : Response → SeoData × Option Err) (s0 : ScrapeState) :
    ∀ (n : Nat) (s : ScrapeState), scrapeMeasure s ≤ n →
      Reach (scrapeStep cap fetch parser) s0 s →
      ∃ t, Reach (scrapeStep cap fetch parser) s0 t ∧
        Stuck (scrapeStep cap fetch parser) t := by
  intro n
  induction n with
  | zero =>
    intro s hn hs
    refine ⟨s, hs, ?_⟩
    intro c
    cases hc : scrapeStep cap fetch parser s c with
    | none => rfl
    | some u =>
      have := scrapeMeasure_trans cap fetch parser s u
        (scrapeStep_trans cap fetch parser s u c hc)
      omega
  | succ n ih =>
    intro s hn hs
    by_cases hstuck : Stuck (scrapeStep cap fetch parser) s
    · exact ⟨s, hs, hstuck⟩
    · simp only [Stuck, not_forall] at hstuck
      obtain ⟨c, hc⟩ := hstuck
      cases hu : scrapeStep cap fetch parser s c with
      | none => exact absurd hu hc
      | some u =>
        have := scrapeMeasure_trans cap fetch parser s u
          (scrapeStep_trans cap fetch parser s u c hu)
        exact ih u (by omega) (Reach.next c hs hu)

/-! ## `scrapeUrls`: no deadlock with a pool of capacity at least 1 -/

theorem exists_pos_of_sum_pos {α : Type} (f : α → Nat) (l : List α)
    (h : 0 < (l.map f).sum) : ∃ (i : Nat) (a : α), l[i]? = some a ∧ 0 < f a := by
  induction l with
  | nil => simp at h
  | cons x l ih =>
    by_cases hx : 0 < f x
    · exact ⟨0, x, by simp, hx⟩
    · simp only [List.map_cons, List.sum_cons] at h
      obtain ⟨i, a, hi, ha⟩ := ih (by omega)
      exact ⟨i + 1, a, by simpa using hi, ha⟩

theorem scrapeWorkerStep_enabled (cap : Nat) (fetch : String → Outcome (Except Err Response))
    (parser : Response → SeoData × Option Err) (s : ScrapeState) (i : Nat) (w : ScrapeWorker)
    (hw : s.workers[i]? = some w) (hm : s.main = .recv)
    (ha : ∀ url, w = .acquire url → s.tokens < cap)
    (hr : ∀ r, w = .release r → 0 < s.tokens) :
    ∃ t, scrapeWorkerStep cap fetch parser s i = some t := by
  unfold scrapeWorkerStep
  rw [hw]
  cases w with
  | acquire url => simp [ha url rfl]
  | fetch url =>
    simp only []
    split <;> exact ⟨_, rfl⟩
  | release r => simp [hr r rfl]
  | parse r => simp
  | record data err => cases err <;> simp
  | send => simp [hm]

theorem scrape_progress (cap : Nat) (fetch : String → Outcome (Except Err Response))
    (parser : Response → SeoData × Option Err) (urls : List String) (s : ScrapeState)
    (hcap : 1 ≤ cap ∨ s.workers = []) (hinv : ScrapeInv cap fetch parser urls s)
    (hc : s.crashed = false) (hnd : ∀ res, s.main ≠ .done res) :
    ∃ c t, scrapeStep cap fetch parser s c = some t := by
  cases hm : s.main with
  | check =>
    refine ⟨.main, ?_⟩
    simp only [scrapeStep, hc, Bool.false_eq_true, if_false, scrapeMainStep, hm]
    split <;> exact ⟨_, rfl⟩
  | iter rest =>
    refine ⟨.main, ?_⟩
    simp only [scrapeStep, hc, Bool.false_eq_true, if_false, scrapeMainStep, hm]
    cases rest with
    | nil => exact ⟨_, rfl⟩
    | cons url rest =>
      simp only []
      split <;> exact ⟨_, rfl⟩
  | done res => exact absurd hm (hnd res)
  | recv =>
    have hpos := hinv.recv_pos hm
    have hact := hinv.active_eq
    cases hs : s.seed with
    | some batch =>
      refine ⟨.seed, ?_⟩
      simp only [scrapeStep, hc, Bool.false_eq_true, if_false, scrapeSeedStep, hm, hs]
      exact ⟨_, rfl⟩
    | none =>
      have hlen : 0 < s.workers.length := by
        simp only [hs, seedN] at hact
        simp at hact
        omega
      have htok := hinv.tokens_eq
      have hcap : 1 ≤ cap := by
        rcases hcap with h | h
        · exact h
        · simp [h] at hlen
      have key : ∃ (i : Nat) (w : ScrapeWorker), s.workers[i]? = some w ∧
          (∀ url, w = .acquire url → s.tokens < cap) ∧
          (∀ r, w = .release r → 0 < s.tokens) := by
        by_cases h0 : s.tokens = 0
        · cases hws : s.workers with
          | nil => simp [hws] at hlen
          | cons w ws =>
            refine ⟨0, w, by simp, fun _ _ => by omega, ?_⟩
            intro r hr
            subst hr
            rw [hws] at htok
            simp [ScrapeWorker.holdsN, ScrapeWorker.holds] at htok
            omega
        · obtain ⟨i, w, hi, hw⟩ := exists_pos_of_sum_pos ScrapeWorker.holdsN s.workers
            (by omega)
          refine ⟨i, w, hi, ?_, fun _ _ => by omega⟩
          intro url hu
          subst hu
          simp [ScrapeWorker.holdsN, ScrapeWorker.holds] at hw
      obtain ⟨i, w, hi, ha, hr⟩ := key
      obtain ⟨t, ht⟩ := scrapeWorkerStep_enabled cap fetch parser s i w hi hm ha hr
      refine ⟨.worker i, t, ?_⟩
      simp only [scrapeStep, hc, Bool.false_eq_true, if_false]
      exact ht

theorem scrape_not_crashed (cap : Nat) (fetch : String → Outcome (Except Err Response))
    (parser : Response → SeoData × Option Err) (urls : List String)
    (hfetch : ∀ u, fetch u ≠ .nilDeref) (s : ScrapeState)
    (h : Reach (scrapeStep cap fetch parser) (scrapeInit urls) s) : s.crashed = false := by
  induction h with
  | init => rfl
  | next c _ hc ih =>
    have ht := scrapeStep_trans cap fetch parser _ _ c hc
    cases ht with
    | crash i url hc hw hf => exact absurd hf (hfetch url)
    | work i w v tokens results hc hw hl => exact ih
    | _ => exact ih

/-- What the invariant says once the loop has returned. -/
theorem scrapeInv_done (cap : Nat) (fetch : String → Outcome (Except Err Response))
    (parser : Response → SeoData × Option Err) (urls : List String) (s : ScrapeState)
    (res : List SeoData) (hinv : ScrapeInv cap fetch parser urls s) (hm : s.main = .done res) :
    res = s.results ∧ s.activeTasks = 0 ∧ s.workers = [] ∧ s.seed = none ∧
    s.dispatched = nonEmptyCount urls ∧ s.received = s.dispatched + 1 ∧
    List.Perm res (expectedRecords fetch parser urls) := by
  have h5 := hinv.done_eq res hm
  have h6 := hinv.done_le res hm
  have h3 := hinv.active_eq
  have h7 := hinv.received_eq
  have h8 := hinv.dispatched_eq
  have hseed : s.seed = none := by
    cases hs : s.seed with
    | none => rfl
    | some b =>
      simp only [hs, seedN] at h3
      simp at h3
      omega
  have hlen : s.workers.length = 0 := by omega
  have hw : s.workers = [] := List.length_eq_zero.mp hlen
  have hp : pendingUrls s.seed s.main = [] := by simp [pendingUrls, hseed, hm]
  have hsn : seedN s.seed = 0 := by simp [seedN, hseed]
  rw [hp] at h8
  simp only [nonEmptyCount, List.filter_nil, List.length_nil] at h8
  refine ⟨h5, by omega, hw, hseed, ?_, by omega, ?_⟩
  · simpa [nonEmptyCount] using h8
  · rw [List.perm_iff_count]
    intro d
    have h9 := hinv.records_eq d
    rw [hp, hw] at h9
    simp [expectedRecords] at h9
    rw [h5]
    simpa [expectedRecords] using h9

theorem scrape_stuck_done (cap : Nat) (fetch : String → Outcome (Except Err Response))
    (parser : Response → SeoData × Option Err) (urls : List String) (s : ScrapeState)
    (hcap : 1 ≤ cap ∨ s.workers = []) (hinv : ScrapeInv cap fetch parser urls s)
    (hc : s.crashed = false) (hst : Stuck (scrapeStep cap fetch parser) s) :
    ∃ res, s.main = .done res := by
  by_contra hnd
  simp only [not_exists] at hnd
  obtain ⟨c, t, ht⟩ := scrape_progress cap fetch parser urls s hcap hinv hc hnd
  rw [hst c] at ht
  cases ht

theorem scrapeMeasure_init (urls : List String) :
    scrapeMeasure (scrapeInit urls) = 6 + 9 * urls.length := by
  simp only [scrapeMeasure, scrapeInit, ScrapeMain.weight, List.map_nil, List.sum_nil]
  simp
  omega

theorem scrapeUrls_eq_some (fetch : String → Outcome (Except Err Response))
    (urls : List String) (parser : Response → SeoData × Option Err) (cap : Nat)
    (cs : List Choice) (res : List SeoData) :
    scrapeUrls fetch urls parser cap cs = some res ↔
      ∃ s, runSchedule (scrapeStep cap fetch parser) (scrapeInit urls) cs = some s ∧
        s.main = .done res := by
  unfold scrapeUrls
  cases h : runSchedule (scrapeStep cap fetch parser) (scrapeInit urls) cs with
  | none => simp
  | some s =>
    simp only [Option.bind, ScrapeState.returned, Option.some.injEq, exists_eq_left']
    cases hm : s.main <;> simp

theorem scrapeUrls_of_reach (fetch : String → Outcome (Except Err Response))
    (urls : List String) (parser : Response → SeoData × Option Err) (cap : Nat)
    (s : ScrapeState) (res : List SeoData)
    (hr : Reach (scrapeStep cap fetch parser) (scrapeInit urls) s) (hm : s.main = .done res) :
    ∃ cs, scrapeUrls fetch urls parser cap cs = some res := by
  obtain ⟨cs, hcs⟩ := (reach_iff_runSchedule _ _ _).mp hr
  exact ⟨cs, (scrapeUrls_eq_some fetch urls parser cap cs res).mpr ⟨s, hcs, hm⟩⟩

/-! ## `scrapeUrls`: the main results -/

/-- C4: with `concurrency ≥ 1` and a fetch that returns, `scrapeUrls` terminates under
every scheduling: no schedule is longer than `6 + 9 * len(urls)` steps; whenever no
goroutine can move, the loop has returned, with `activeTasks = 0`, no worker left, one
worker started per non-empty URL and one batch received per worker plus the seed batch;
throughout, `activeTasks` is 1 plus the workers started minus the batches received; and
some schedule does reach the return. -/
theorem scrapeUrls_terminates (urls : List String) (cap : Nat)
    (fetch : String → Outcome (Except Err Response))
    (parser : Response → SeoData × Option Err) (hcap : 1 ≤ cap)
    (hfetch : ∀ u, fetch u ≠ .nilDeref) :
    (∀ cs s, runSchedule (scrapeStep cap fetch parser) (scrapeInit urls) cs = some s →
      cs.length ≤ 6 + 9 * urls.length) ∧
    (∀ s, Reach (scrapeStep cap fetch parser) (scrapeInit urls) s →
      Stuck (scrapeStep cap fetch parser) s →
      ∃ res, s.main = .done res ∧ s.activeTasks = 0 ∧ s.workers = [] ∧ s.seed = none ∧
        s.dispatched = nonEmptyCount urls ∧ s.received = s.dispatched + 1) ∧
    (∀ s, Reach (scrapeStep cap fetch parser) (scrapeInit urls) s →
      s.activeTasks = 1 + (s.dispatched : Int) - (s.received : Int) ∧
      s.dispatched ≤ nonEmptyCount urls ∧
      s.received + seedN s.seed + s.workers.length = s.dispatched + 1) ∧
    (∃ schedule res, scrapeUrls fetch urls parser cap schedule = some res) := by
  have hdone : ∀ s, Reach (scrapeStep cap fetch parser) (scrapeInit urls) s →
      Stuck (scrapeStep cap fetch parser) s → ∃ res, s.main = .done res := by
    intro s hr hst
    exact scrape_stuck_done cap fetch parser urls s (Or.inl hcap)
      (scrapeInv_reach cap fetch parser urls s hr)
      (scrape_not_crashed cap fetch parser urls hfetch s hr) hst
  refine ⟨?_, ?_, ?_, ?_⟩
  · intro cs s h
    have := scrapeMeasure_runSchedule cap fetch parser cs _ _ h
    rw [scrapeMeasure_init] at this
    omega
  · intro s hr hst
    obtain ⟨res, hm⟩ := hdone s hr hst
    have hinv := scrapeInv_reach cap fetch parser urls s hr
    obtain ⟨_, h2, h3, h4, h5, h6, _⟩ := scrapeInv_done cap fetch parser urls s res hinv hm
    exact ⟨res, hm, h2, h3, h4, h5, h6⟩
  · intro s hr
    have hinv := scrapeInv_reach cap fetch parser urls s hr
    have h3 := hinv.active_eq
    have h7 := hinv.received_eq
    have h8 := hinv.dispatched_eq
    refine ⟨by omega, by omega, h7⟩
  · obtain ⟨t, hr, hst⟩ := scrape_reach_stuck cap fetch parser (scrapeInit urls) _
      (scrapeInit urls) (le_refl _) Reach.init
    obtain ⟨res, hm⟩ := hdone t hr hst
    obtain ⟨cs, hcs⟩ := scrapeUrls_of_reach fetch urls parser cap t res hr hm
    exact ⟨cs, res, hcs⟩

theorem fetchB_returns (u : String) : fetchB u ≠ .nilDeref := by
  unfold fetchB
  split <;> simp

theorem scrapeUrls_terminates_witness :
    scrapeUrls fetchFail urlsB helloParser 1 fullSchedule = some [] ∧
    (∀ cs s, runSchedule (scrapeStep 1 fetchB helloParser) (scrapeInit urlsB) cs = some s →
      cs.length ≤ 6 + 9 * urlsB.length) ∧
    (∀ cs s, runSchedule (scrapeStep 1 fetchFail helloParser) (scrapeInit urlsB) cs = some s →
      cs.length ≤ 6 + 9 * urlsB.length) :=
  ⟨by decide,
   (scrapeUrls_terminates urlsB 1 fetchB helloParser (by decide) fetchB_returns).1,
   (scrapeUrls_terminates urlsB 1 fetchFail helloParser (by decide)
      (by intro u h; cases h)).1⟩

/-- With `concurrency ≥ 1` and a fetch that returns for every URL, whatever the
scheduling, `scrapeUrls` returns a permutation of `expectedRecords`: one record, the
extractor's, per non-empty input URL whose fetch and extraction succeed.  Every run that
can go no further has returned such a list, some run returns, and the list is empty when
every URL fails. -/
theorem scrapeUrls_records (urls : List String) (cap : Nat)
    (fetch : String → Outcome (Except Err Response))
    (parser : Response → SeoData × Option Err) (hcap : 1 ≤ cap)
    (hfetch : ∀ u, fetch u ≠ .nilDeref) :
    (∀ s, Reach (scrapeStep cap fetch parser) (scrapeInit urls) s →
      Stuck (scrapeStep cap fetch parser) s →
      ∃ res, s.main = .done res ∧ List.Perm res (expectedRecords fetch parser urls)) ∧
    (∀ schedule res, scrapeUrls fetch urls parser cap schedule = some res →
      List.Perm res (expectedRecords fetch parser urls)) ∧
    (∃ schedule res, scrapeUrls fetch urls parser cap schedule = some res) ∧
    ((∀ u, u ∈ urls → recordOf fetch parser u = none) →
      expectedRecords fetch parser urls = []) := by
  have hperm : ∀ s res, Reach (scrapeStep cap fetch parser) (scrapeInit urls) s →
      s.main = .done res → List.Perm res (expectedRecords fetch parser urls) := by
    intro s res hr hm
    exact (scrapeInv_done cap fetch parser urls s res
      (scrapeInv_reach cap fetch parser urls s hr) hm).2.2.2.2.2.2
  have hdone : ∀ s, Reach (scrapeStep cap fetch parser) (scrapeInit urls) s →
      Stuck (scrapeStep cap fetch parser) s → ∃ res, s.main = .done res := by
    intro s hr hst
    exact scrape_stuck_done cap fetch parser urls s (Or.inl hcap)
      (scrapeInv_reach cap fetch parser urls s hr)
      (scrape_not_crashed cap fetch parser urls hfetch s hr) hst
  refine ⟨?_, ?_, ?_, ?_⟩
  · intro s hr hst
    obtain ⟨res, hm⟩ := hdone s hr hst
    exact ⟨res, hm, hperm s res hr hm⟩
  · intro cs res h
    obtain ⟨s, hs, hm⟩ := (scrapeUrls_eq_some fetch urls parser cap cs res).mp h
    exact hperm s res (reach_runSchedule _ _ cs _ _ Reach.init hs) hm
  · obtain ⟨t, hr, hst⟩ := scrape_reach_stuck cap fetch parser (scrapeInit urls) _
      (scrapeInit urls) (le_refl _) Reach.init
    obtain ⟨res, hm⟩ := hdone t hr hst
    obtain ⟨cs, hcs⟩ := scrapeUrls_of_reach fetch urls parser cap t res hr hm
    exact ⟨cs, res, hcs⟩
  · intro hall
    unfold expectedRecords
    rw [List.filterMap_eq_nil_iff]
    intro u hu
    exact hall u (List.mem_filter.mp hu).1

theorem scrapeUrls_records_witness :
    expectedRecords fetchB helloParser urlsB = [⟨"https://x/A", "Hello", "", "", 200⟩] ∧
    scrapeUrls fetchB urlsB helloParser 1 fullSchedule
      = some [⟨"https://x/A", "Hello", "", "", 200⟩] ∧
    (∀ schedule res, scrapeUrls fetchB urlsB helloParser 1 schedule = some res →
      List.Perm res (expectedRecords fetchB helloParser urlsB)) :=
  ⟨by decide, by decide,
   (scrapeUrls_records urlsB 1 fetchB helloParser (by decide) fetchB_returns).2.1⟩

/-! ### A URL whose request cannot be built -/

theorem mem_set_of_ne {α : Type} (l : List α) (i : Nat) (a b v : α)
    (h : l[i]? = some b) (ha : a ∈ l) (hab : a ≠ b) : a ∈ l.set i v := by
  obtain ⟨k, hk⟩ := List.mem_iff_getElem?.mp ha
  have hki : i ≠ k := by
    intro e
    subst e
    rw [h] at hk
    exact hab (Option.some.inj hk).symm
  apply List.getElem?_mem (n := k)
  rw [List.getElem?_set_ne hki]
  exact hk

theorem mem_set_self {α : Type} (l : List α) (i : Nat) (b v : α)
    (h : l[i]? = some b) : v ∈ l.set i v := by
  obtain ⟨hi, _⟩ := List.getElem?_eq_some.mp h
  apply List.getElem?_mem (n := i)
  exact List.getElem?_set_self hi

theorem mem_eraseIdx_of_ne {α : Type} (l : List α) (i : Nat) (a b : α)
    (h : l[i]? = some b) (ha : a ∈ l) (hab : a ≠ b) : a ∈ l.eraseIdx i := by
  obtain ⟨k, hk⟩ := List.mem_iff_getElem?.mp ha
  rw [List.mem_eraseIdx_iff_getElem?]
  refine ⟨k, ?_, hk⟩
  intro e
  subst e
  rw [h] at hk
  exact hab (Option.some.inj hk).symm

/-- A crashed process has a worker standing in `makeRequest`. -/
theorem scrape_crashed_workers (cap : Nat) (fetch : String → Outcome (Except Err Response))
    (parser : Response → SeoData × Option Err) (urls : List String) (s : ScrapeState)
    (h : Reach (scrapeStep cap fetch parser) (scrapeInit urls) s) :
    s.crashed = true → s.workers ≠ [] := by
  induction h with
  | init => intro h; cases h
  | next c _ hstep ih =>
    have ht := scrapeStep_trans cap fetch parser _ _ c hstep
    cases ht with
    | enter hc hm hpos => intro h; simp [hc] at h
    | leave hc hm hle => intro h; simp [hc] at h
    | batchEnd hc hm => intro h; simp [hc] at h
    | skip rest hc hm => intro h; simp [hc] at h
    | spawn url rest hc hm hne => intro h; simp [hc] at h
    | seed batch hc hm hs => intro h; simp [hc] at h
    | work i w v tokens results hc hw hl => intro h; simp [hc] at h
    | crash i url hc hw hf =>
      intro _ hnil
      rw [hnil] at hw
      simp at hw
    | complete i hc hw hm => intro h; simp [hc] at h
    | handoff i j url r hc hi hj h0 => intro h; simp [hc] at h

/-- A non-empty URL on which `makeRequest` dies is never dealt with: until the process
dies it is still to be visited, or its worker stands before line 208 or line 209. -/
theorem scrape_poisoned (cap : Nat) (fetch : String → Outcome (Except Err Response))
    (parser : Response → SeoData × Option Err) (urls : List String) (u : String)
    (hmem : u ∈ urls) (hne : u ≠ "") (hu : fetch u = .nilDeref) (s : ScrapeState)
    (h : Reach (scrapeStep cap fetch parser) (scrapeInit urls) s) :
    s.crashed = true ∨ u ∈ pendingUrls s.seed s.main ∨
      ScrapeWorker.acquire u ∈ s.workers ∨ ScrapeWorker.fetch u ∈ s.workers := by
  induction h with
  | init =>
    right; left
    simpa [scrapeInit, pendingUrls] using hmem
  | @next s1 _ c _ hstep ih =>
    have ht := scrapeStep_trans cap fetch parser _ _ c hstep
    cases ht with
    | enter hc hm hpos =>
      rcases ih with h | h | h | h
      · rw [hc] at h; cases h
      · right; left
        simpa [pendingUrls, hm] using h
      · exact Or.inr (Or.inr (Or.inl h))
      · exact Or.inr (Or.inr (Or.inr h))
    | leave hc hm hle =>
      rcases ih with h | h | h | h
      · rw [hc] at h; cases h
      · right; left
        simpa [pendingUrls, hm] using h
      · exact Or.inr (Or.inr (Or.inl h))
      · exact Or.inr (Or.inr (Or.inr h))
    | batchEnd hc hm =>
      rcases ih with h | h | h | h
      · rw [hc] at h; cases h
      · right; left
        simpa [pendingUrls, hm] using h
      · exact Or.inr (Or.inr (Or.inl h))
      · exact Or.inr (Or.inr (Or.inr h))
    | skip rest hc hm =>
      rcases ih with h | h | h | h
      · rw [hc] at h; cases h
      · right; left
        simp only [pendingUrls, hm, List.mem_append, List.mem_cons] at h ⊢
        rcases h with h | h | h
        · exact Or.inl h
        · exact absurd h hne
        · exact Or.inr h
      · exact Or.inr (Or.inr (Or.inl h))
      · exact Or.inr (Or.inr (Or.inr h))
    | spawn url rest hc hm hurl =>
      rcases ih with h | h | h | h
      · rw [hc] at h; cases h
      · simp only [pendingUrls, hm, List.mem_append, List.mem_cons] at h
        rcases h with h | h | h
        · right; left
          simp only [pendingUrls, List.mem_append]
          exact Or.inl h
        · right; right; left
          simp [h]
        · right; left
          simp only [pendingUrls, List.mem_append]
          exact Or.inr h
      · right; right; left
        exact List.mem_append_left _ h
      · right; right; right
        exact List.mem_append_left _ h
    | seed batch hc hm hs =>
      rcases ih with h | h | h | h
      · rw [hc] at h; cases h
      · right; left
        simpa [pendingUrls, hm, hs] using h
      · exact Or.inr (Or.inr (Or.inl h))
      · exact Or.inr (Or.inr (Or.inr h))
    | work i w v tokens results hc hw hl =>
      rcases ih with h | h | h | h
      · rw [hc] at h; cases h
      · exact Or.inr (Or.inl h)
      · by_cases hwe : w = ScrapeWorker.acquire u
        · subst hwe
          cases hl with
          | acquire _ _ _ hlt =>
            right; right; right
            exact mem_set_self _ _ _ _ hw
        · right; right; left
          exact mem_set_of_ne _ _ _ _ _ hw h (Ne.symm hwe)
      · by_cases hwe : w = ScrapeWorker.fetch u
        · subst hwe
          cases hl with
          | fetch _ r _ _ hf =>
            rw [hu] at hf
            cases hf
        · right; right; right
          exact mem_set_of_ne _ _ _ _ _ hw h (Ne.symm hwe)
    | crash i url hc hw hf => exact Or.inl rfl
    | complete i hc hw hm =>
      rcases ih with h | h | h | h
      · rw [hc] at h; cases h
      · right; left
        simpa [pendingUrls, hm] using h
      · right; right; left
        exact mem_eraseIdx_of_ne _ _ _ _ hw h (by intro e; cases e)
      · right; right; right
        exact mem_eraseIdx_of_ne _ _ _ _ hw h (by intro e; cases e)
    | handoff i j url r hc hi hj h0 =>
      have hij : i ≠ j := by
        intro e
        subst e
        rw [hi] at hj
        cases hj
      have hj2 : (s1.workers.set i (ScrapeWorker.fetch url))[j]?
          = some (ScrapeWorker.release r) := by
        rw [List.getElem?_set_ne hij]
        exact hj
      rcases ih with h | h | h | h
      · rw [hc] at h; cases h
      · exact Or.inr (Or.inl h)
      · right; right
        by_cases hue : url = u
        · subst hue
          right
          exact mem_set_of_ne _ _ _ _ _ hj2 (mem_set_self _ _ _ _ hi) (by intro e; cases e)
        · left
          refine mem_set_of_ne _ _ _ _ _ hj2 (mem_set_of_ne _ _ _ _ _ hi h ?_)
            (by intro e; cases e)
          intro e
          cases e
          exact hue rfl
      · right; right; right
        exact mem_set_of_ne _ _ _ _ _ hj2
          (mem_set_of_ne _ _ _ _ _ hi h (by intro e; cases e)) (by intro e; cases e)

/-- C5 (the code differs): when the list holds a non-empty URL for which
`http.NewRequest` fails, `scrapeUrls` returns no collection at all, under any scheduling
and for any `concurrency`: `makeRequest` dereferences the nil request (line 117) and the
process dies, or the worker of that URL never gets to its completion batch. -/
theorem scrapeUrls_request_failure (tr : Transport) (urls : List String)
    (parser : Response → SeoData × Option Err) (cap : Nat) (u : String) (e : Err)
    (hmem : u ∈ urls) (hne : u ≠ "") (hreq : tr.newRequest "GET" u = .error e) :
    ∀ schedule, scrapeUrls (makeRequest tr) urls parser cap schedule = none := by
  have hu : makeRequest tr u = .nilDeref := by simp [makeRequest, hreq]
  intro cs
  cases h : scrapeUrls (makeRequest tr) urls parser cap cs with
  | none => rfl
  | some res =>
    exfalso
    obtain ⟨s, hs, hm⟩ := (scrapeUrls_eq_some (makeRequest tr) urls parser cap cs res).mp h
    have hr := reach_runSchedule _ _ cs _ _ Reach.init hs
    have hinv := scrapeInv_reach cap (makeRequest tr) parser urls s hr
    obtain ⟨_, _, hw, hseed, _⟩ :=
      scrapeInv_done cap (makeRequest tr) parser urls s res hinv hm
    rcases scrape_poisoned cap (makeRequest tr) parser urls u hmem hne hu s hr
      with hp | hp | hp | hp
    · exact scrape_crashed_workers cap (makeRequest tr) parser urls s hr hp hw
    · simp [pendingUrls, hseed, hm] at hp
    · simp [hw] at hp
    · simp [hw] at hp

theorem scrapeUrls_request_failure_witness :
    expectedRecords (makeRequest strictTransport) helloParser urlsBad
      = [⟨"https://x/A", "Hello", "", "", 200⟩] ∧
    (∀ schedule, scrapeUrls (makeRequest strictTransport) urlsBad helloParser 1 schedule
      = none) ∧
    runSchedule (scrapeStep 1 (makeRequest strictTransport) helloParser) (scrapeInit urlsBad)
      crashSchedule = some
        { main := .iter [], activeTasks := 2, seed := none,
          workers := [.acquire "https://x/A", .fetch ":"], tokens := 1, results := [],
          crashed := true, dispatched := 2, received := 1 } :=
  ⟨by decide,
   scrapeUrls_request_failure strictTransport urlsBad helloParser 1 ":"
     "missing protocol scheme" (by decide) (by decide) (by decide),
   by decide⟩

/-- C6: in every reachable state of `scrapeUrls` with `concurrency = cap` (any `cap`, in
particular every `cap ≥ 1`), the workers between line 208 and line 210 are at most
`cap`; they are as many as the elements buffered in `tokens`. -/
theorem scrapeUrls_pool_bound (urls : List String) (cap : Nat)
    (fetch : String → Outcome (Except Err Response))
    (parser : Response → SeoData × Option Err) (s : ScrapeState)
    (h : Reach (scrapeStep cap fetch parser) (scrapeInit urls) s) :
    holders s ≤ cap ∧ holders s = s.tokens := by
  have hinv := scrapeInv_reach cap fetch parser urls s h
  have h1 := hinv.tokens_eq
  have h2 := hinv.tokens_le
  rw [holders_eq_sum]
  omega

theorem scrapeUrls_pool_bound_witness :
    (∀ s, runSchedule (scrapeStep 1 fetchB helloParser) (scrapeInit urlsB) oneHolderSchedule
        = some s → holders s ≤ 1 ∧ holders s = s.tokens) ∧
    (∀ s, runSchedule (scrapeStep 2 fetchB helloParser) (scrapeInit urlsB) twoHoldersSchedule
        = some s → holders s ≤ 2 ∧ holders s = s.tokens) ∧
    (∀ s, runSchedule (scrapeStep 10 fetchB helloParser) (scrapeInit urlsB) twoHoldersSchedule
        = some s → holders s ≤ 10 ∧ holders s = s.tokens) ∧
    (runSchedule (scrapeStep 1 fetchB helloParser) (scrapeInit urlsB) oneHolderSchedule).map
        holders = some 1 ∧
    (runSchedule (scrapeStep 2 fetchB helloParser) (scrapeInit urlsB) twoHoldersSchedule).map
        holders = some 2 ∧
    runSchedule (scrapeStep 1 fetchB helloParser) (scrapeInit urlsB) twoHoldersSchedule
        = none :=
  ⟨fun s hs => scrapeUrls_pool_bound urlsB 1 fetchB helloParser s
      (reach_runSchedule _ _ oneHolderSchedule _ _ Reach.init hs),
   fun s hs => scrapeUrls_pool_bound urlsB 2 fetchB helloParser s
      (reach_runSchedule _ _ twoHoldersSchedule _ _ Reach.init hs),
   fun s hs => scrapeUrls_pool_bound urlsB 10 fetchB helloParser s
      (reach_runSchedule _ _ twoHoldersSchedule _ _ Reach.init hs),
   by decide, by decide, by decide⟩

/-! ## `scrapeUrls` with `concurrency = 0` -/

theorem nonEmptyCount_pos (urls : List String) (h : ∃ u, u ∈ urls ∧ u ≠ "") :
    0 < nonEmptyCount urls := by
  obtain ⟨u, hu, hne⟩ := h
  unfold nonEmptyCount
  apply List.length_pos_of_mem (a := u)
  simp [List.mem_filter, hu, hne]

theorem nonEmptyCount_zero (urls : List String) (h : ∀ u, u ∈ urls → u = "") :
    nonEmptyCount urls = 0 := by
  unfold nonEmptyCount
  rw [List.length_eq_zero, List.filter_eq_nil_iff]
  intro u hu
  simp [h u hu]

theorem scrape_zero_reach (fetch : String → Outcome (Except Err Response))
    (parser : Response → SeoData × Option Err) (urls : List String) (s : ScrapeState)
    (h : Reach (scrapeStep 0 fetch parser) (scrapeInit urls) s) :
    s.tokens = 0 ∧ (∀ w, w ∈ s.workers → ∃ url, w = ScrapeWorker.acquire url) ∧
    s.received + seedN s.seed = 1 ∧ s.results = [] ∧ s.crashed = false := by
  induction h with
  | init => simp [scrapeInit, seedN]
  | next c _ hc ih =>
    obtain ⟨z1, z2, z3, z4, z5⟩ := ih
    have ht := scrapeStep_trans 0 fetch parser _ _ c hc
    cases ht with
    | enter hc hm hpos => exact ⟨z1, z2, z3, z4, z5⟩
    | leave hc hm hle => exact ⟨z1, z2, z3, z4, z5⟩
    | batchEnd hc hm => exact ⟨z1, z2, z3, z4, z5⟩
    | skip rest hc hm => exact ⟨z1, z2, z3, z4, z5⟩
    | spawn url rest hc hm hne =>
      refine ⟨z1, ?_, z3, z4, z5⟩
      intro w hw
      simp only [List.mem_append, List.mem_singleton] at hw
      rcases hw with hw | hw
      · exact z2 w hw
      · exact ⟨url, hw⟩
    | seed batch hc hm hs =>
      refine ⟨z1, z2, ?_, z4, z5⟩
      have e1 : seedN (some batch) = 1 := by simp [seedN]
      have e0 : seedN (none : Option (List String)) = 0 := by simp [seedN]
      rw [hs, e1] at z3
      simp only [e0]
      omega
    | work i w v tokens results hc hw hl =>
      obtain ⟨url, hu⟩ := z2 w (List.getElem?_mem hw)
      subst hu
      cases hl with
      | acquire _ _ _ hlt => omega
    | crash i url hc hw hf =>
      obtain ⟨u, hu⟩ := z2 _ (List.getElem?_mem hw)
      cases hu
    | complete i hc hw hm =>
      obtain ⟨u, hu⟩ := z2 _ (List.getElem?_mem hw)
      cases hu
    | handoff i j url r hc hi hj h0 =>
      obtain ⟨u, hu⟩ := z2 _ (List.getElem?_mem hj)
      cases hu

theorem scrape_empty_reach (cap : Nat) (fetch : String → Outcome (Except Err Response))
    (parser : Response → SeoData × Option Err) (urls : List String)
    (hall : ∀ u, u ∈ urls → u = "") (s : ScrapeState)
    (h : Reach (scrapeStep cap fetch parser) (scrapeInit urls) s) :
    s.workers = [] ∧ s.results = [] ∧ s.crashed = false := by
  induction h with
  | init => simp [scrapeInit]
  | next c hr hc ih =>
    obtain ⟨e1, e2, e3⟩ := ih
    have hinv := scrapeInv_reach cap fetch parser urls _ (Reach.next c hr hc)
    have h8 := hinv.dispatched_eq
    have h0 := nonEmptyCount_zero urls hall
    have ht := scrapeStep_trans cap fetch parser _ _ c hc
    cases ht with
    | enter hc hm hpos => exact ⟨e1, e2, e3⟩
    | leave hc hm hle => exact ⟨e1, e2, e3⟩
    | batchEnd hc hm => exact ⟨e1, e2, e3⟩
    | skip rest hc hm => exact ⟨e1, e2, e3⟩
    | spawn url rest hc hm hne =>
      simp only [] at h8
      omega
    | seed batch hc hm hs => exact ⟨e1, e2, e3⟩
    | work i w v tokens results hc hw hl => simp [e1] at hw
    | crash i url hc hw hf => simp [e1] at hw
    | complete i hc hw hm => simp [e1] at hw
    | handoff i j url r hc hi hj h0 => simp [e1] at hi

/-- C10 (amended): `scrapeUrls` with `concurrency = 0`.  If some URL is non-empty then in
every reachable state the loop has not returned, `tokens` is empty, every worker still
stands before line 208, no completion batch has been received, `activeTasks` is positive
at the loop test (line 173) and while the loop waits (line 174), it is never negative,
and it is 0 only inside the range loop of line 178 before any worker is started; so no
schedule makes the call return, and a state is reachable where nothing can move.  If no URL is non-empty then every run that can go no further has returned the
empty collection, nothing else is ever returned, and some schedule does return it. -/
theorem scrapeUrls_zero_concurrency (urls : List String)
    (fetch : String → Outcome (Except Err Response))
    (parser : Response → SeoData × Option Err) :
    ((∃ u, u ∈ urls ∧ u ≠ "") →
      (∀ s, Reach (scrapeStep 0 fetch parser) (scrapeInit urls) s →
        (∀ res, s.main ≠ .done res) ∧ s.tokens = 0 ∧
        (∀ w, w ∈ s.workers → ∃ url, w = ScrapeWorker.acquire url) ∧
        (s.main = .check → 0 < s.activeTasks) ∧ (s.main = .recv → 0 < s.activeTasks) ∧
        s.received ≤ 1 ∧ s.results = [] ∧ 0 ≤ s.activeTasks ∧
        (s.activeTasks = 0 → ∃ rest, s.main = .iter rest ∧ s.workers = [])) ∧
      (∀ schedule, scrapeUrls fetch urls parser 0 schedule = none) ∧
      (∃ s, Reach (scrapeStep 0 fetch parser) (scrapeInit urls) s ∧
        Stuck (scrapeStep 0 fetch parser) s ∧ ∀ res, s.main ≠ .done res)) ∧
    ((∀ u, u ∈ urls → u = "") →
      (∀ s, Reach (scrapeStep 0 fetch parser) (scrapeInit urls) s →
        Stuck (scrapeStep 0 fetch parser) s → s.main = .done []) ∧
      (∀ schedule res, scrapeUrls fetch urls parser 0 schedule = some res → res = []) ∧
      (∃ schedule, scrapeUrls fetch urls parser 0 schedule = some [])) ∧
    (∀ cs s, runSchedule (scrapeStep 0 fetch parser) (scrapeInit urls) cs = some s →
      cs.length ≤ 6 + 9 * urls.length) := by
  refine ⟨?_, ?_, ?_⟩
  · intro hne
    have hpos := nonEmptyCount_pos urls hne
    have hnd : ∀ s, Reach (scrapeStep 0 fetch parser) (scrapeInit urls) s →
        ∀ res, s.main ≠ .done res := by
      intro s hr res hm
      have hinv := scrapeInv_reach 0 fetch parser urls s hr
      obtain ⟨_, _, z3, _, _⟩ := scrape_zero_reach fetch parser urls s hr
      obtain ⟨_, _, _, _, h5, h6, _⟩ := scrapeInv_done 0 fetch parser urls s res hinv hm
      omega
    constructor
    · intro s hr
      have hinv := scrapeInv_reach 0 fetch parser urls s hr
      obtain ⟨z1, z2, z3, z4, _⟩ := scrape_zero_reach fetch parser urls s hr
      have h3 := hinv.active_eq
      have hcheck : s.main = .check → 0 < s.activeTasks := by
        intro hm
        have h7 := hinv.received_eq
        have h8 := hinv.dispatched_eq
        cases hs : s.seed with
        | some b =>
          simp only [hs, seedN] at h3
          simp at h3
          omega
        | none =>
          have e0 : seedN s.seed = 0 := by simp [seedN, hs]
          have hp : pendingUrls s.seed s.main = [] := by simp [pendingUrls, hs, hm]
          rw [hp] at h8
          simp only [nonEmptyCount, List.filter_nil, List.length_nil] at h8
          simp only [nonEmptyCount] at hpos
          omega
      refine ⟨hnd s hr, z1, z2, hcheck, hinv.recv_pos, by omega, z4, by omega, ?_⟩
      intro h0
      cases hm : s.main with
      | check => have := hcheck hm; omega
      | recv => have := hinv.recv_pos hm; omega
      | iter rest => exact ⟨rest, rfl, List.length_eq_zero.mp (by omega)⟩
      | done res => exact absurd hm (hnd s hr res)
    · constructor
      · intro cs
        cases h : scrapeUrls fetch urls parser 0 cs with
        | none => rfl
        | some res =>
          obtain ⟨s, hs, hm⟩ := (scrapeUrls_eq_some fetch urls parser 0 cs res).mp h
          exact absurd hm (hnd s (reach_runSchedule _ _ cs _ _ Reach.init hs) res)
      · obtain ⟨t, hr, hst⟩ := scrape_reach_stuck 0 fetch parser (scrapeInit urls) _
          (scrapeInit urls) (le_refl _) Reach.init
        exact ⟨t, hr, hst, hnd t hr⟩
  · intro hall
    have hdone : ∀ s, Reach (scrapeStep 0 fetch parser) (scrapeInit urls) s →
        Stuck (scrapeStep 0 fetch parser) s → s.main = .done [] := by
      intro s hr hst
      have hinv := scrapeInv_reach 0 fetch parser urls s hr
      obtain ⟨e1, e2, e3⟩ := scrape_empty_reach 0 fetch parser urls hall s hr
      obtain ⟨res, hm⟩ := scrape_stuck_done 0 fetch parser urls s (Or.inr e1) hinv e3 hst
      have := hinv.done_eq res hm
      rw [hm, this, e2]
    refine ⟨hdone, ?_, ?_⟩
    · intro cs res h
      obtain ⟨s, hs, hm⟩ := (scrapeUrls_eq_some fetch urls parser 0 cs res).mp h
      have hr := reach_runSchedule _ _ cs _ _ Reach.init hs
      have hinv := scrapeInv_reach 0 fetch parser urls s hr
      obtain ⟨_, e2, _⟩ := scrape_empty_reach 0 fetch parser urls hall s hr
      rw [hinv.done_eq res hm, e2]
    · obtain ⟨t, hr, hst⟩ := scrape_reach_stuck 0 fetch parser (scrapeInit urls) _
        (scrapeInit urls) (le_refl _) Reach.init
      exact scrapeUrls_of_reach fetch urls parser 0 t [] hr (hdone t hr hst)
  · intro cs s h
    have := scrapeMeasure_runSchedule 0 fetch parser cs _ _ h
    rw [scrapeMeasure_init] at this
    omega

theorem scrapeUrls_zero_concurrency_witness :
    (∀ schedule, scrapeUrls fetchOk ["https://x/A"] helloParser 0 schedule = none) ∧
    runSchedule (scrapeStep 0 fetchOk helloParser) (scrapeInit ["https://x/A"]) waitingSchedule
      = some { main := .recv, activeTasks := 1, seed := none,
               workers := [.acquire "https://x/A"], tokens := 0, results := [],
               crashed := false, dispatched := 1, received := 1 } ∧
    scrapeStep 0 fetchOk helloParser
      { main := .recv, activeTasks := 1, seed := none, workers := [.acquire "https://x/A"],
        tokens := 0, results := [], crashed := false, dispatched := 1, received := 1 }
      (.worker 0) = none ∧
    (∀ s, Reach (scrapeStep 0 fetchOk helloParser) (scrapeInit ["", ""]) s →
      Stuck (scrapeStep 0 fetchOk helloParser) s → s.main = .done []) ∧
    scrapeUrls fetchOk ["", ""] helloParser 0 [.main, .seed, .main, .main, .main, .main]
      = some [] :=
  ⟨((scrapeUrls_zero_concurrency ["https://x/A"] fetchOk helloParser).1
      ⟨"https://x/A", by simp, by decide⟩).2.1,
   by decide, by decide,
   ((scrapeUrls_zero_concurrency ["", ""] fetchOk helloParser).2.1
      (by intro u hu; simpa using hu)).1,
   by decide⟩

/-- With `concurrency = 0` and one URL, `activeTasks` is 0 once the seed batch has been
received (line 175) and before the worker is started (line 180): it does not stay
positive in every reachable state. -/
theorem scrapeUrls_zero_activeTasks_zero :
    runSchedule (scrapeStep 0 fetchOk helloParser) (scrapeInit ["https://x/A"])
      seedOnlySchedule = some
        { main := .iter ["https://x/A"], activeTasks := 0, seed := none, workers := [],
          tokens := 0, results := [], crashed := false, dispatched := 0, received := 1 } ∧
    ¬ (∀ s, Reach (scrapeStep 0 fetchOk helloParser) (scrapeInit ["https://x/A"]) s →
        0 < s.activeTasks) := by
  have hrun : runSchedule (scrapeStep 0 fetchOk helloParser) (scrapeInit ["https://x/A"])
      seedOnlySchedule = some
        { main := .iter ["https://x/A"], activeTasks := 0, seed := none, workers := [],
          tokens := 0, results := [], crashed := false, dispatched := 0, received := 1 } := by
    decide
  refine ⟨hrun, ?_⟩
  intro hall
  have := hall _ (reach_runSchedule _ _ seedOnlySchedule _ _ Reach.init hrun)
  simp at this

end GoWebCrawler
